import Mathlib

/-!
Shallow embedding of the `mat` terminal file viewer (Rust) and proofs about
its styled-document pipeline and interactive viewer state.

Conventions of the embedding:
* Rust `usize` arithmetic is modelled by `Nat`; `saturating_sub` is `Nat`
  subtraction, which already saturates at zero.
* Rust `String` / `&str` values are modelled as `List Char`; byte offsets
  returned by the regex engine are modelled as offsets into that list
  (each list element stands for one indivisible unit of the underlying text).
* The external `regex` crate is abstracted: a compiled pattern is modelled
  either by its match predicate (`List Char → Bool`, all the grep filter
  uses) or by its `find_iter` function (`List Char → List (Nat × Nat)`,
  what the search overlay uses); regex compilation is an abstract parameter
  `regexNew`.
* The external `unicode-width` crate is modelled by `charWidth` below.
* Fallible operations return `Except` / `Option`; I/O results that the code
  polls for (terminal size, tail-reader content) become explicit arguments.
-/

namespace Mat

/-- Modelled from the external `unicode-width` crate (not part of this
repository): the terminal display width of a character.  Control characters
have no width (the crate returns `None`, which the viewer code turns into 0
with `unwrap_or(0)`); a representative set of East-Asian blocks is
double-width; everything else, ambiguous characters included, is single
width.  None of the verified properties depends on the exact extent of the
double-width table. -/
def charWidth (c : Char) : Nat :=
  if c.toNat < 0x20 ∨ c.toNat = 0x7F then 0
  else if (0x1100 ≤ c.toNat ∧ c.toNat ≤ 0x115F)
       ∨ (0x2E80 ≤ c.toNat ∧ c.toNat ≤ 0x303E)
       ∨ (0x3041 ≤ c.toNat ∧ c.toNat ≤ 0x33FF)
       ∨ (0x4E00 ≤ c.toNat ∧ c.toNat ≤ 0x9FFF)
       ∨ (0xAC00 ≤ c.toNat ∧ c.toNat ≤ 0xD7A3)
       ∨ (0xF900 ≤ c.toNat ∧ c.toNat ≤ 0xFAFF)
       ∨ (0xFF00 ≤ c.toNat ∧ c.toNat ≤ 0xFF60)
  then 2
  else 1

/-- `ratatui::style::Color`, restricted to the variants this code base uses. -/
inductive Color where
  | black
  | yellow
  | darkGray
  | rgb (r g b : Nat)
deriving DecidableEq

/-- `display/line.rs`: `SpanStyle`. -/
structure SpanStyle where
  fg : Option Color := none
  bg : Option Color := none
  bold : Bool := false
  italic : Bool := false
  underline : Bool := false
deriving DecidableEq

instance : Inhabited SpanStyle := ⟨{}⟩

/-- `display/line.rs`: `StyledSpan` (text modelled as `List Char`). -/
structure StyledSpan where
  text : List Char
  style : SpanStyle
deriving DecidableEq

/-- `StyledSpan::width`: sum of the display widths of the characters. -/
def StyledSpan.width (s : StyledSpan) : Nat :=
  (s.text.map charWidth).sum

/-- `display/line.rs`: `Line`. -/
structure Line where
  number : Nat
  spans : List StyledSpan
  is_match : Bool
  is_context : Bool
deriving DecidableEq

instance : Inhabited Line := ⟨⟨0, [], false, false⟩⟩

/-- `Line::plain`. -/
def Line.plain (number : Nat) (text : List Char) : Line :=
  ⟨number, [⟨text, {}⟩], false, false⟩

/-- `Line::separator`: the grep group separator row. -/
def Line.separator : Line :=
  ⟨0, [⟨['-', '-'], { fg := some Color.darkGray }⟩], false, false⟩

/-- `Line::width`. -/
def Line.width (l : Line) : Nat :=
  (l.spans.map StyledSpan.width).sum

/-- `Line::text`: concatenation of the span texts. -/
def Line.text (l : Line) : List Char :=
  (l.spans.map StyledSpan.text).flatten

/-- `display/line.rs`: `Document`. -/
structure Document where
  lines : List Line
  max_line_width : Nat
  source_name : List Char
  encoding : List Char
deriving DecidableEq

/-- `Document::line_count`. -/
def Document.line_count (d : Document) : Nat := d.lines.length

/-! ## Wrap cache (`pager/app.rs`: `WrappedLine`, `build_wrapped_lines`,
`total_wrapped_lines`) -/

/-- `pager/app.rs`: `WrappedLine`, one display row of a soft-wrapped line. -/
structure WrappedLine where
  line_idx : Nat
  line_number : Nat
  is_first_row : Bool
  char_offset : Nat
  display_width : Nat
deriving DecidableEq

/-- The character loop inside `App::build_wrapped_lines`, for one line.
Arguments after the remaining characters mirror the Rust loop state:
the enumeration index `idx` of the next character, the current row's
starting character offset `row_start`, the accumulated `current_width`,
and the `is_first` flag.  A row is emitted whenever adding the next
character would exceed the content width `width` (and the row is
non-empty); after the loop the pending row is emitted when it has
positive width or is the line's first row. -/
def wrapLoop (width lineIdx lineNumber : Nat) :
    List Char → Nat → Nat → Nat → Bool → List WrappedLine
  | [], _idx, row_start, current_width, is_first =>
      if current_width > 0 ∨ is_first then
        [⟨lineIdx, lineNumber, is_first, row_start, current_width⟩]
      else []
  | ch :: rest, idx, row_start, current_width, is_first =>
      let ch_width := charWidth ch
      if current_width + ch_width > width ∧ current_width > 0 then
        ⟨lineIdx, lineNumber, is_first, row_start, current_width⟩ ::
          wrapLoop width lineIdx lineNumber rest (idx + 1) idx ch_width false
      else
        wrapLoop width lineIdx lineNumber rest (idx + 1) row_start
          (current_width + ch_width) is_first

/-- The body of `App::build_wrapped_lines` for one document line: an empty
line still takes one row; otherwise the line is broken by `wrapLoop`. -/
def wrapLine (width lineIdx : Nat) (l : Line) : List WrappedLine :=
  if l.width = 0 then [⟨lineIdx, l.number, true, 0, 0⟩]
  else wrapLoop width lineIdx l.number l.text 0 0 0 true

/-- `App::build_wrapped_lines`, factored over the line list and the content
width (the `App` method applies this with `width = content_width` when the
wrap mode is `Wrap` and the width is positive). -/
def buildWrappedLines (lines : List Line) (width : Nat) : List WrappedLine :=
  ((lines.enum).map (fun p => wrapLine width p.1 p.2)).flatten

/-- `App::total_wrapped_lines`, factored over the line list and the content
width: the "simplified calculation" summing `ceil(line_width / width)` per
line, with empty lines counting one row. -/
def totalWrappedLinesCore (lines : List Line) (width : Nat) : Nat :=
  (lines.map (fun l => if l.width = 0 then 1 else (l.width + width - 1) / width)).sum

/-! ## Grep filter (`filter/grep.rs`) -/

/-- `filter/grep.rs`: `GrepOptions`.  The compiled `Regex` is abstracted by
the only operation the filter performs with it, its match predicate
(`Regex::is_match` applied to a line's raw text). -/
structure GrepOptions where
  pattern : List Char → Bool
  before : Nat
  after : Nat

/-- One step of the `merge_ranges` loop: compare the incoming range with the
last accumulated range (`merged.last_mut()`), extending it in place on
overlap or adjacency (`start <= last.1`) and appending otherwise. -/
def mergeStep (merged : List (Nat × Nat)) (r : Nat × Nat) : List (Nat × Nat) :=
  match merged.getLast? with
  | none => [r]
  | some last =>
      if r.1 ≤ last.2 then merged.dropLast ++ [(last.1, max last.2 r.2)]
      else merged ++ [r]

/-- `filter/grep.rs`: `merge_ranges`.  The ranges are stably sorted by start
(`sort_by_key(|r| r.0)`, modelled by `List.mergeSort`, which is also stable)
and then folded with `mergeStep`, starting from the first sorted range. -/
def merge_ranges (ranges : List (Nat × Nat)) : List (Nat × Nat) :=
  match ranges.mergeSort (fun a b => decide (a.1 ≤ b.1)) with
  | [] => []
  | first :: rest => rest.foldl mergeStep [first]

/-- Membership of an index in a closed-open interval. -/
def memIv (i : Nat) (r : Nat × Nat) : Prop := r.1 ≤ i ∧ i < r.2

instance (i : Nat) (r : Nat × Nat) : Decidable (memIv i r) := by
  unfold memIv; infer_instance

/-- The line emitted by `grep_filter` for document index `i`: the original
line with the match/context flags set; non-matching (context) lines have
their spans replaced by a single dark-gray span holding the raw text. -/
def grepEmitLine (doc : Document) (match_indices : List Nat) (i : Nat) : Line :=
  let original_line := doc.lines.getD i default
  let text := original_line.text
  let is_match := match_indices.contains i
  if is_match then
    { original_line with is_match := true, is_context := false }
  else
    { original_line with
        is_match := false
        is_context := true
        spans := [⟨text, { fg := some Color.darkGray }⟩] }

/-- The `grep_filter` output loop over the merged ranges, carrying the
accumulated lines and `last_end`; a separator row is inserted when the
accumulator is non-empty and the next range starts after `last_end`. -/
def grepCollect (doc : Document) (match_indices : List Nat)
    (acc : List Line × Nat) (r : Nat × Nat) : List Line × Nat :=
  let result_lines := acc.1
  let withSep :=
    if ¬ result_lines.isEmpty ∧ acc.2 < r.1 then result_lines ++ [Line.separator]
    else result_lines
  (withSep ++ (List.range' r.1 (r.2 - r.1)).map (grepEmitLine doc match_indices), r.2)

/-- `filter/grep.rs`: `grep_filter`. -/
def grep_filter (document : Document) (options : GrepOptions) : Document :=
  let total_lines := document.lines.length
  if total_lines = 0 then
    ⟨[], 0, document.source_name, document.encoding⟩
  else
    let match_indices :=
      (List.range total_lines).filter
        (fun i => options.pattern (document.lines.getD i default).text)
    if match_indices.isEmpty then
      ⟨[], 0, document.source_name, document.encoding⟩
    else
      let ranges := match_indices.map
        (fun m => (m - options.before, min (m + options.after + 1) total_lines))
      let merged_ranges := merge_ranges ranges
      let result_lines := (merged_ranges.foldl (grepCollect document match_indices) ([], 0)).1
      let max_line_width := (result_lines.map Line.width).foldl max 0
      ⟨result_lines, max_line_width, document.source_name, document.encoding⟩

/-! ## Errors and exit codes (`error.rs`, `main.rs`) -/

/-- `error.rs`: `EXIT_SUCCESS`. -/
def EXIT_SUCCESS : Nat := 0

/-- `error.rs`: `EXIT_ERROR`. -/
def EXIT_ERROR : Nat := 1

/-- `error.rs`: `EXIT_INVALID_ARGS`. -/
def EXIT_INVALID_ARGS : Nat := 2

/-- `error.rs`: `MatError`.  Opaque payloads (`std::io::Error`,
`regex::Error`) are dropped; path, pattern and range strings are kept. -/
inductive MatError where
  | io (path : List Char)
  | invalidRegex (pattern : List Char)
  | emptyPattern
  | binaryFile (path : List Char)
  | invalidLineRange (range : List Char)
  | encodingError (path : List Char)
deriving DecidableEq

/-- `MatError::exit_code`. -/
def MatError.exit_code : MatError → Nat
  | .invalidRegex _ => EXIT_INVALID_ARGS
  | .invalidLineRange _ => EXIT_INVALID_ARGS
  | _ => EXIT_ERROR

/-- The possible outcomes of `main.rs::run`, abstracting its effects: the
pipeline either succeeds, finds no input source (no positional file and
stdin attached to a terminal), or fails with a `MatError`. -/
inductive RunOutcome where
  | success
  | missingInput
  | failure (e : MatError)

/-- The `Result` value `main.rs::run` returns for each outcome.  In the
missing-input arm the code prints a user-facing message to stderr and then
returns `Ok(())`. -/
def runResult : RunOutcome → Except MatError Unit
  | .success => .ok ()
  | .missingInput => .ok ()
  | .failure e => .error e

/-- `main.rs::main`: exit code `EXIT_SUCCESS` on `Ok`, `e.exit_code()` on
`Err(e)`. -/
def mainExitCode (o : RunOutcome) : Nat :=
  match runResult o with
  | .ok _ => EXIT_SUCCESS
  | .error e => e.exit_code

/-! ## Line ranges (`pager/mod.rs`: `parse_line_range`) -/

/-- Modelled from the Rust standard library (not part of this repository):
`str::parse::<usize>` on a trimmed numeric token — succeeds on a non-empty
all-digit string.  (A redundant leading `+` sign and overflow beyond the
machine word, both outside every property verified here, are not
modelled.) -/
def parseUsize (s : List Char) : Option Nat :=
  if s ≠ [] ∧ s.all Char.isDigit then
    some (s.foldl (fun n c => n * 10 + (c.toNat - 48)) 0)
  else none

/-- Modelled from the Rust standard library: `str::trim`, dropping
whitespace from both ends. -/
def strTrim (s : List Char) : List Char :=
  ((s.dropWhile Char.isWhitespace).reverse.dropWhile Char.isWhitespace).reverse

/-- Modelled from the Rust standard library: `str::split_once(':')` — split
at the first colon, returning the parts before and after it. -/
def splitOnceColon : List Char → Option (List Char × List Char)
  | [] => none
  | c :: rest =>
      if c = ':' then some ([], rest)
      else match splitOnceColon rest with
           | some (a, b) => some (c :: a, b)
           | none => none

/-- `pager/mod.rs`: `parse_line_range`.  The `?`-style early returns of the
source become explicit `match`es on the parsed sides; an empty side defaults
to `1` / `total_lines` before parsing, exactly as in the source. -/
def parse_line_range (range₀ : List Char) (total_lines : Nat) :
    Except MatError (Nat × Nat) :=
  let range := strTrim range₀
  if range = [] then .error (.invalidLineRange range)
  else
    match splitOnceColon range with
    | some (start_str, end_str) =>
        match (if start_str = [] then some 1 else parseUsize start_str) with
        | none => .error (.invalidLineRange range)
        | some start =>
            match (if end_str = [] then some total_lines else parseUsize end_str) with
            | none => .error (.invalidLineRange range)
            | some stop =>
                if start = 0 ∨ stop = 0 ∨ start > stop then
                  .error (.invalidLineRange range)
                else .ok (start, min stop total_lines)
    | none =>
        match parseUsize range with
        | none => .error (.invalidLineRange range)
        | some line =>
            if line = 0 ∨ line > total_lines then
              .error (.invalidLineRange range)
            else .ok (line, line)

/-! ## Search overlay (`highlight/search.rs`) -/

/-- A compiled regex abstracted by its `find_iter` behaviour: for a text it
yields the list of match ranges `(start, end)` (in document order,
non-overlapping — hypotheses of the theorems that need those facts). -/
def FindPattern : Type := List Char → List (Nat × Nat)

/-- `highlight/search.rs`: `highlight_style` — black on yellow, bold. -/
def highlight_style : SpanStyle :=
  { fg := some Color.black, bg := some Color.yellow, bold := true }

/-- Rust slice `&text[a..b]` on the modelled text. -/
def slice (l : List Char) (a b : Nat) : List Char :=
  (l.drop a).take (b - a)

/-- The per-span part of the `apply_search_highlight` rebuild: walk the
matches with a running `last_pos`, keeping out-of-match fragments in the
span's own style and in-match fragments in the search style; the two `min`s
and the skip test mirror the overlap clamping in the source. -/
def spanPiecesStep (search_style : SpanStyle) (span : StyledSpan)
    (span_start : Nat) (acc : List StyledSpan × Nat) (mat : Nat × Nat) :
    List StyledSpan × Nat :=
  let len := span.text.length
  let span_end := span_start + len
  if mat.2 ≤ span_start ∨ span_end ≤ mat.1 then acc
  else
    let last_pos := acc.2
    let overlap_start := min (mat.1 - span_start) len
    let overlap_end := min (mat.2 - span_start) len
    let spans₁ :=
      if last_pos < overlap_start then
        acc.1 ++ [⟨slice span.text last_pos overlap_start, span.style⟩]
      else acc.1
    let spans₂ :=
      if overlap_start < overlap_end then
        spans₁ ++ [⟨slice span.text overlap_start overlap_end, search_style⟩]
      else spans₁
    (spans₂, overlap_end)

def spanPieces (search_style : SpanStyle) (ms : List (Nat × Nat))
    (span_start : Nat) (span : StyledSpan) : List StyledSpan :=
  let len := span.text.length
  let folded := ms.foldl (spanPiecesStep search_style span span_start) ([], 0)
  if folded.2 < len then
    folded.1 ++ [⟨slice span.text folded.2 len, span.style⟩]
  else folded.1

/-- The span-walk step of the `apply_search_highlight` rebuild: the
accumulator carries the rebuilt spans and the running `char_offset`. -/
def overlayStep (ms : List (Nat × Nat)) (acc : List StyledSpan × Nat)
    (span : StyledSpan) : List StyledSpan × Nat :=
  (acc.1 ++ spanPieces highlight_style ms acc.2 span,
   acc.2 + span.text.length)

/-- The per-line part of `apply_search_highlight`: if the pattern matches
nowhere in the raw text the line is kept; otherwise the span list is rebuilt
span by span, tracking the span's start offset in the line. -/
def overlayLine (pattern : FindPattern) (line : Line) : Line :=
  let text := line.text
  let ms := pattern text
  if ms.isEmpty then line
  else
    let new_spans := (line.spans.foldl (overlayStep ms) ([], 0)).1
    if new_spans.isEmpty then line else { line with spans := new_spans }

/-- `highlight/search.rs`: `apply_search_highlight`. -/
def apply_search_highlight (document : Document) (pattern : FindPattern) :
    Document :=
  { document with lines := document.lines.map (overlayLine pattern) }

/-! ## Viewer state (`pager/app.rs`, `pager/search.rs`, `highlight/search.rs`) -/

/-- `cli.rs`: `WrapMode`. -/
inductive WrapMode where
  | none
  | wrap
  | truncate
deriving DecidableEq

/-- `pager/app.rs`: `Mode`. -/
inductive Mode where
  | normal
  | search (query : List Char)
deriving DecidableEq

/-- `highlight/search.rs`: `MatchPosition`. -/
structure MatchPosition where
  line_idx : Nat
  start_col : Nat
  end_col : Nat
deriving DecidableEq

instance : Inhabited MatchPosition := ⟨⟨0, 0, 0⟩⟩

/-- `highlight/search.rs`: `SearchState` (the compiled regex is modelled by
its `find_iter` function). -/
structure SearchState where
  pattern : FindPattern
  matches' : List MatchPosition
  current_match : Option Nat

/-- `SearchState::find_matches`: record every match position, scanning the
lines in order. -/
def SearchState.find_matches (s : SearchState) (document : Document) :
    SearchState :=
  { s with
      matches' :=
        ((document.lines.enum).map
          (fun p => (s.pattern p.2.text).map
            (fun m => MatchPosition.mk p.1 m.1 m.2))).flatten }

/-- `SearchState::next_match`: advance cyclically; returns the updated state
and the line index to scroll to. -/
def SearchState.next_match (s : SearchState) : SearchState × Option Nat :=
  if s.matches'.isEmpty then (s, none)
  else
    let next := match s.current_match with
      | some i => (i + 1) % s.matches'.length
      | none => 0
    ({ s with current_match := some next },
     some (s.matches'.getD next default).line_idx)

/-- `SearchState::prev_match`: step back cyclically. -/
def SearchState.prev_match (s : SearchState) : SearchState × Option Nat :=
  if s.matches'.isEmpty then (s, none)
  else
    let prev := match s.current_match with
      | some i => if i = 0 then s.matches'.length - 1 else i - 1
      | none => s.matches'.length - 1
    ({ s with current_match := some prev },
     some (s.matches'.getD prev default).line_idx)

/-- Modelled from the spec: `regex::escape` of the external regex crate —
every character that is a regex metacharacter is preceded by a backslash. -/
def regexEscape (pattern : List Char) : List Char :=
  pattern.flatMap (fun c =>
    if c ∈ ['\\', '.', '+', '*', '?', '(', ')', '|', '[', ']', '{', '}',
            '^', '$', '#', '&', '-', '~'] then ['\\', c] else [c])

/-- `filter/grep.rs`: `build_regex_pattern` — literal quoting, word and line
anchoring, and the inline case-insensitivity flag, applied in this order. -/
def build_regex_pattern (pattern : List Char)
    (ignore_case fixed_strings word_regexp line_regexp : Bool) : List Char :=
  let p := if fixed_strings then regexEscape pattern else pattern
  let p := if word_regexp then '\\' :: 'b' :: p ++ ['\\', 'b'] else p
  let p := if line_regexp then '^' :: p ++ ['$'] else p
  if ignore_case then '(' :: '?' :: 'i' :: ')' :: p else p

/-- `pager/search.rs`: `InteractiveSearch`. -/
structure InteractiveSearch where
  query : List Char
  ignore_case : Bool

/-- `InteractiveSearch::compile_pattern`.  Compilation by the external regex
crate (`Regex::new(..).ok()`) is an abstract parameter `regexNew`; an empty
query yields `none`. -/
def InteractiveSearch.compile_pattern
    (regexNew : List Char → Option FindPattern) (s : InteractiveSearch) :
    Option FindPattern :=
  if s.query = [] then none
  else regexNew (build_regex_pattern s.query s.ignore_case false false false)

/-- `InteractiveSearch::apply_highlighting`. -/
def InteractiveSearch.apply_highlighting
    (regexNew : List Char → Option FindPattern) (s : InteractiveSearch)
    (document : Document) : Document :=
  match s.compile_pattern regexNew with
  | some pattern => apply_search_highlight document pattern
  | none => document

/-- `input/follow.rs`: `FollowReader` (only its byte offset is state; the
polled file contents become an explicit argument of
`App.check_follow_updates`). -/
structure FollowReader where
  position : Nat

/-- `pager/app.rs`: `App` — the viewer state.  The `theme_colors` palette
(pure rendering data) is omitted. -/
structure App where
  document : Document
  original_document : Option Document
  scroll_line : Nat
  scroll_col : Nat
  mode : Mode
  should_quit : Bool
  terminal_size : Nat × Nat
  show_line_numbers : Bool
  search_state : Option SearchState
  interactive_search : Option InteractiveSearch
  ignore_case : Bool
  follow_mode : Bool
  follow_reader : Option FollowReader
  file_path : Option (List Char)
  wrap_mode : WrapMode
  max_width : Nat
  wrapped_lines : Option (List WrappedLine)

/-- `App::new`: initial scroll `(0,0)`, mode Normal, terminal `(80,24)`. -/
def App.new (document : Document) (show_line_numbers : Bool)
    (search_state : Option SearchState) (ignore_case : Bool)
    (file_path : Option (List Char)) (wrap_mode : WrapMode)
    (max_width : Nat) : App :=
  { document := document
    original_document := none
    scroll_line := 0
    scroll_col := 0
    mode := .normal
    should_quit := false
    terminal_size := (80, 24)
    show_line_numbers := show_line_numbers
    search_state := search_state
    interactive_search := none
    ignore_case := ignore_case
    follow_mode := false
    follow_reader := none
    file_path := file_path
    wrap_mode := wrap_mode
    max_width := max_width
    wrapped_lines := none }

/-- `App::content_height`: terminal height minus the status bar row. -/
def App.content_height (app : App) : Nat :=
  app.terminal_size.2 - 1

/-- `App::gutter_width`.  The source computes the digit count of the largest
line number with `f64::log10`; `Nat.log 10` models it. -/
def App.gutter_width (app : App) : Nat :=
  if ¬ app.show_line_numbers then 0
  else
    let max_line := app.document.line_count
    if max_line = 0 then 3 else (Nat.log 10 max_line + 1) + 2

/-- `App::content_width`. -/
def App.content_width (app : App) : Nat :=
  app.terminal_size.1 - (if app.show_line_numbers then app.gutter_width else 0)

/-- `App::total_wrapped_lines`. -/
def App.total_wrapped_lines (app : App) : Nat :=
  if app.wrap_mode ≠ .wrap then app.document.line_count
  else
    let width := app.content_width
    if width = 0 then app.document.line_count
    else totalWrappedLinesCore app.document.lines width

/-- `App::max_scroll`. -/
def App.max_scroll (app : App) : Nat :=
  match app.wrap_mode with
  | .none | .truncate => app.document.line_count - app.content_height
  | .wrap => app.total_wrapped_lines - app.content_height

/-- `App::build_wrapped_lines`. -/
def App.build_wrapped_lines (app : App) : App :=
  if app.wrap_mode ≠ .wrap then { app with wrapped_lines := none }
  else
    let width := app.content_width
    if width = 0 then { app with wrapped_lines := none }
    else { app with wrapped_lines := some (buildWrappedLines app.document.lines width) }

/-- `App::scroll_down`. -/
def App.scroll_down (app : App) (n : Nat) : App :=
  { app with scroll_line := min (app.scroll_line + n) app.max_scroll }

/-- `App::scroll_up`. -/
def App.scroll_up (app : App) (n : Nat) : App :=
  { app with scroll_line := app.scroll_line - n }

/-- `App::go_to_top`. -/
def App.go_to_top (app : App) : App :=
  { app with scroll_line := 0 }

/-- `App::go_to_bottom`. -/
def App.go_to_bottom (app : App) : App :=
  { app with scroll_line := app.max_scroll }

/-- `App::scroll_half_page_down`. -/
def App.scroll_half_page_down (app : App) : App :=
  app.scroll_down (app.content_height / 2)

/-- `App::scroll_half_page_up`. -/
def App.scroll_half_page_up (app : App) : App :=
  app.scroll_up (app.content_height / 2)

/-- `App::scroll_to_line`: center the line in the viewport, clamped by the
document's line count minus the content height. -/
def App.scroll_to_line (app : App) (line_idx : Nat) : App :=
  let height := app.content_height
  let target := line_idx - height / 2
  let max_scroll := app.document.line_count - height
  { app with scroll_line := min target max_scroll }

/-- `App::next_match`. -/
def App.next_match (app : App) : App :=
  match app.search_state with
  | none => app
  | some state =>
      let (state', r) := state.next_match
      let app := { app with search_state := some state' }
      match r with
      | none => app
      | some line_idx => app.scroll_to_line line_idx

/-- `App::prev_match`. -/
def App.prev_match (app : App) : App :=
  match app.search_state with
  | none => app
  | some state =>
      let (state', r) := state.prev_match
      let app := { app with search_state := some state' }
      match r with
      | none => app
      | some line_idx => app.scroll_to_line line_idx

/-- `App::set_terminal_size`: record the size; invalidate the wrap cache if
the size changed while not in `WrapMode::None`. -/
def App.set_terminal_size (app : App) (width height : Nat) : App :=
  let old_size := app.terminal_size
  let app := { app with terminal_size := (width, height) }
  if old_size ≠ (width, height) ∧ app.wrap_mode ≠ .none then
    { app with wrapped_lines := none }
  else app

/-- The append step of `App::check_follow_updates`: push a plain line with
the next sequential number (`start_number` is fixed once, before the loop)
and bump `max_line_width` when the new line is wider. -/
def followAppend (start_number : Nat) (d : Document) (p : Nat × List Char) :
    Document :=
  let line := Line.plain (start_number + p.1) p.2
  let width := line.width
  { d with
      lines := d.lines ++ [line]
      max_line_width :=
        if d.max_line_width < width then width else d.max_line_width }

/-- `App::check_follow_updates`.  The polled tail-reader result is the
explicit argument `poll` (`none` models an `Err` from the reader, which the
code absorbs).  New lines are appended as plain lines numbered from
`lines.len() + 1`, `max_line_width` is bumped, and the view jumps to the
bottom. -/
def App.check_follow_updates (app : App) (poll : Option (List (List Char))) :
    App :=
  if ¬ app.follow_mode then app
  else
    match app.follow_reader with
    | none => app
    | some _ =>
        match poll with
        | none => app
        | some new_lines =>
            if new_lines.isEmpty then app
            else
              let start_number := app.document.lines.length + 1
              let document :=
                new_lines.enum.foldl (followAppend start_number) app.document
              ({ app with document := document }).go_to_bottom

/-- `App::enter_search_mode`: snapshot the document, open an interactive
search, switch to Search mode with an empty query. -/
def App.enter_search_mode (app : App) (case_insensitive : Bool) : App :=
  { app with
      original_document := some app.document
      interactive_search := some ⟨[], case_insensitive⟩
      mode := .search [] }

/-- `App::apply_incremental_search`: restore the snapshot, then re-apply the
highlight overlay for the current query. -/
def App.apply_incremental_search
    (regexNew : List Char → Option FindPattern) (app : App) : App :=
  let app :=
    match app.original_document with
    | some original => { app with document := original }
    | none => app
  match app.interactive_search with
  | some search => { app with document := search.apply_highlighting regexNew app.document }
  | none => app

/-- `App::search_add_char`. -/
def App.search_add_char (regexNew : List Char → Option FindPattern)
    (app : App) (c : Char) : App :=
  match app.interactive_search with
  | none => app
  | some search =>
      let search := { search with query := search.query ++ [c] }
      let app := { app with
        interactive_search := some search
        mode := .search search.query }
      app.apply_incremental_search regexNew

/-- `App::search_backspace`. -/
def App.search_backspace (regexNew : List Char → Option FindPattern)
    (app : App) : App :=
  match app.interactive_search with
  | none => app
  | some search =>
      let search := { search with query := search.query.dropLast }
      let app := { app with
        interactive_search := some search
        mode := .search search.query }
      app.apply_incremental_search regexNew

/-- `App::confirm_search`: on a non-empty query that compiles, build a fresh
`SearchState` over the current document; in every case return to Normal mode
and drop the interactive state and the snapshot. -/
def App.confirm_search (regexNew : List Char → Option FindPattern)
    (app : App) : App :=
  let app :=
    match app.interactive_search with
    | some search =>
        if ¬ search.query.isEmpty then
          match search.compile_pattern regexNew with
          | some pattern =>
              let state := SearchState.find_matches ⟨pattern, [], none⟩ app.document
              { app with search_state := some state }
          | none => app
        else app
    | none => app
  { app with
      mode := .normal
      interactive_search := none
      original_document := none }

/-- `App::cancel_search`: restore the snapshot (taking it out), return to
Normal mode, drop the interactive state. -/
def App.cancel_search (app : App) : App :=
  let app :=
    match app.original_document with
    | some original => { app with document := original, original_document := none }
    | none => { app with original_document := none }
  { app with mode := .normal, interactive_search := none }

/-- An interactive-search edit: one key press in Search mode. -/
inductive SearchEdit where
  | add (c : Char)
  | backspace

/-- Apply a sequence of interactive-search edits. -/
def applyEdits (regexNew : List Char → Option FindPattern) (app : App) :
    List SearchEdit → App
  | [] => app
  | .add c :: rest => applyEdits regexNew (app.search_add_char regexNew c) rest
  | .backspace :: rest => applyEdits regexNew (app.search_backspace regexNew) rest

/-! ## Derived notions used by the statements -/

/-- The raw text carried by a span list (what `Line::text` computes for the
line holding those spans). -/
def spansText (spans : List StyledSpan) : List Char :=
  (spans.map StyledSpan.text).flatten

/-- The scroll-clamping invariant of the viewer:
`0 ≤ scroll_line ≤ max_scroll` (the lower bound is inherent to `Nat`). -/
def scrollInvariant (app : App) : Prop :=
  app.scroll_line ≤ app.max_scroll

/-- `scrollInvariant` holds after each of the scrolling and match-navigation
operations. -/
def scrollOpsPreserve (app : App) (n : Nat) : Prop :=
  scrollInvariant (app.scroll_down n)
  ∧ scrollInvariant (app.scroll_up n)
  ∧ scrollInvariant app.go_to_top
  ∧ scrollInvariant app.go_to_bottom
  ∧ scrollInvariant app.scroll_half_page_down
  ∧ scrollInvariant app.scroll_half_page_up
  ∧ scrollInvariant app.next_match
  ∧ scrollInvariant app.prev_match

/-- Structurally recursive form of the `merge_ranges` fold: merge the
current range with each incoming one while they touch, emit it when a gap
appears.  `merge_ranges_eq_mergeSorted` proves it equal to the `foldl` over
`mergeStep`. -/
def mergeSorted : (Nat × Nat) → List (Nat × Nat) → List (Nat × Nat)
  | cur, [] => [cur]
  | cur, r :: rest =>
      if r.1 ≤ cur.2 then mergeSorted (cur.1, max cur.2 r.2) rest
      else cur :: mergeSorted r rest

/-- The block of output lines `grep_filter` emits for one merged range. -/
def grepBlock (doc : Document) (match_indices : List Nat) (r : Nat × Nat) :
    List Line :=
  (List.range' r.1 (r.2 - r.1)).map (grepEmitLine doc match_indices)

/-! ## Concrete fixtures for closed instances -/

/-- A one-line document. -/
def exDoc : Document := ⟨[Line.plain 1 ['a']], 1, [], []⟩

/-- An abstract regex compiler that rejects every pattern (as `Regex::new`
does on a malformed pattern such as an unterminated `[`). -/
def regexNeverCompiles : List Char → Option FindPattern := fun _ => none

/-- A three-line document for exercising the grep filter. -/
def exGrepDoc : Document :=
  ⟨[Line.plain 1 ['a'], Line.plain 2 ['b'], Line.plain 3 ['c']], 1, [], []⟩

/-- Grep options matching exactly the line `b`, with one line of leading
context. -/
def exGrepOpts : GrepOptions := ⟨fun t => t == ['b'], 1, 0⟩

/-- A viewer over `exDoc` that has entered search mode and typed `[`
(whose compilation fails). -/
def exSearchApp : App :=
  ((App.new exDoc false none false none WrapMode.none 200).enter_search_mode
    true).search_add_char regexNeverCompiles '['

/-! # Theorems -/

/-! ## C2 — exit codes -/

/-- Claim C2, counterexample.  The claim says a missing input (no positional
file and stdin attached to a terminal) exits with code 1; in the code that
arm of `run` prints its message and returns `Ok(())`, so `main` exits with
code 0. -/
theorem exit_code_missing_input_cex :
    mainExitCode RunOutcome.missingInput = 0 ∧
      mainExitCode RunOutcome.missingInput ≠ 1 := by
  constructor
  · rfl
  · decide

/-- Claim C2, amended: the exit code is 0 on success **and on missing
input** (the code treats the latter as a successful run after printing a
message); 1 for I/O errors, empty patterns, binary-file rejection, and
encoding errors; 2 for `InvalidRegex` and `InvalidLineRange`. -/
theorem exit_code_amended (p pat rng : List Char) :
    mainExitCode .success = 0 ∧
    mainExitCode .missingInput = 0 ∧
    mainExitCode (.failure (.io p)) = 1 ∧
    mainExitCode (.failure .emptyPattern) = 1 ∧
    mainExitCode (.failure (.binaryFile p)) = 1 ∧
    mainExitCode (.failure (.encodingError p)) = 1 ∧
    mainExitCode (.failure (.invalidRegex pat)) = 2 ∧
    mainExitCode (.failure (.invalidLineRange rng)) = 2 :=
  ⟨rfl, rfl, rfl, rfl, rfl, rfl, rfl, rfl⟩

/-! ## C6 — line-range grammar -/

theorem parseUsize_digits {s : List Char} {x : Nat}
    (h : parseUsize s = some x) : s ≠ [] ∧ ∀ c ∈ s, c.isDigit = true := by
  unfold parseUsize at h
  split at h
  · next hc => exact ⟨hc.1, by simpa using hc.2⟩
  · exact absurd h (by simp)

theorem digit_ne_colon {c : Char} (h : c.isDigit = true) : c ≠ ':' := by
  rintro rfl
  exact absurd h (by decide)

theorem digit_not_whitespace {c : Char} (h : c.isDigit = true) :
    c.isWhitespace = false := by
  by_contra hw
  rw [Bool.not_eq_false] at hw
  simp only [Char.isWhitespace, Bool.or_eq_true, decide_eq_true_eq] at hw
  rcases hw with ((h1 | h1) | h1) | h1 <;> subst h1 <;> exact absurd h (by decide)

theorem dropWhile_ws_eq_self {s : List Char}
    (h : ∀ c ∈ s, c.isWhitespace = false) :
    s.dropWhile Char.isWhitespace = s := by
  cases s with
  | nil => rfl
  | cons c cs =>
      rw [List.dropWhile_cons, if_neg]
      simp [h c (by simp)]

theorem strTrim_eq_self {s : List Char}
    (h : ∀ c ∈ s, c.isWhitespace = false) : strTrim s = s := by
  unfold strTrim
  rw [dropWhile_ws_eq_self h, dropWhile_ws_eq_self, List.reverse_reverse]
  intro c hc
  exact h c (by simpa using hc)

theorem splitOnceColon_append {sx sy : List Char} (h : ∀ c ∈ sx, c ≠ ':') :
    splitOnceColon (sx ++ ':' :: sy) = some (sx, sy) := by
  induction sx with
  | nil => simp [splitOnceColon]
  | cons c cs ih =>
      have hc : ¬ c = ':' := h c (by simp)
      rw [List.cons_append]
      unfold splitOnceColon
      rw [if_neg hc, ih (fun d hd => h d (by simp [hd]))]

theorem splitOnceColon_eq_none {s : List Char} (h : ∀ c ∈ s, c ≠ ':') :
    splitOnceColon s = none := by
  induction s with
  | nil => rfl
  | cons c cs ih =>
      have hc : ¬ c = ':' := h c (by simp)
      unfold splitOnceColon
      rw [if_neg hc, ih (fun d hd => h d (by simp [hd]))]

/-- Claim C6, counterexample.  For the single-number form, the claim's
failure conditions (non-numeric side, zero side, start above end) admit
`"200"` against a 100-line document, with the end clamped to 100; the code
instead rejects any single number above the total with
`InvalidLineRange`. -/
theorem parse_line_range_cex :
    parse_line_range ['2', '0', '0'] 100 =
      .error (.invalidLineRange ['2', '0', '0']) := rfl

/-- Claim C6, amended.  `X:Y`, `:Y`, `X:` and `X` behave as claimed —
empty sides default to 1 and the total, colon-form ends are clamped to the
total, errors exactly on a non-numeric side, a zero side, or start > end —
except for the single-number form `X`, which is **not** clamped: it fails
with `InvalidLineRange` whenever `X` exceeds the total. -/
theorem parse_line_range_amended (sx sy : List Char) (x y T : Nat)
    (hT : 0 < T) (hx : parseUsize sx = some x) (hy : parseUsize sy = some y) :
    (parse_line_range (sx ++ ':' :: sy) T =
      if x = 0 ∨ y = 0 ∨ y < x then .error (.invalidLineRange (sx ++ ':' :: sy))
      else .ok (x, min y T))
    ∧ (parse_line_range (':' :: sy) T =
      if y = 0 then .error (.invalidLineRange (':' :: sy))
      else .ok (1, min y T))
    ∧ (parse_line_range (sx ++ [':']) T =
      if x = 0 ∨ T < x then .error (.invalidLineRange (sx ++ [':']))
      else .ok (x, T))
    ∧ (parse_line_range sx T =
      if x = 0 ∨ T < x then .error (.invalidLineRange sx)
      else .ok (x, x)) := by
  obtain ⟨hnex, hdigx⟩ := parseUsize_digits hx
  obtain ⟨hney, hdigy⟩ := parseUsize_digits hy
  have hwsx : ∀ c ∈ sx, c.isWhitespace = false :=
    fun c hc => digit_not_whitespace (hdigx c hc)
  have hwsy : ∀ c ∈ sy, c.isWhitespace = false :=
    fun c hc => digit_not_whitespace (hdigy c hc)
  have hwsc : (':' : Char).isWhitespace = false := by decide
  have hncx : ∀ c ∈ sx, c ≠ ':' := fun c hc => digit_ne_colon (hdigx c hc)
  have hncy : ∀ c ∈ sy, c ≠ ':' := fun c hc => digit_ne_colon (hdigy c hc)
  refine ⟨?_, ?_, ?_, ?_⟩
  · have htrim : strTrim (sx ++ ':' :: sy) = sx ++ ':' :: sy := by
      refine strTrim_eq_self ?_
      intro c hc
      rcases List.mem_append.1 hc with h | h
      · exact hwsx c h
      · rcases List.mem_cons.1 h with rfl | h
        · exact hwsc
        · exact hwsy c h
    have hne : ¬ (sx ++ ':' :: sy) = [] := by simp
    unfold parse_line_range
    simp only [htrim, if_neg hne, splitOnceColon_append hncx, if_neg hnex,
      if_neg hney, hx, hy]
  · have htrim : strTrim (':' :: sy) = ':' :: sy := by
      refine strTrim_eq_self ?_
      intro c hc
      rcases List.mem_cons.1 hc with rfl | h
      · exact hwsc
      · exact hwsy c h
    have hne : ¬ (':' :: sy : List Char) = [] := by simp
    have hsplit : splitOnceColon (':' :: sy) = some ([], sy) := by
      simpa using @splitOnceColon_append [] sy (by simp)
    unfold parse_line_range
    simp only [htrim, if_neg hne, hsplit, eq_self_iff_true, if_true,
      if_neg hney, hy]
    split_ifs <;> first | rfl | omega | simp_all
  · have htrim : strTrim (sx ++ [':']) = sx ++ [':'] := by
      refine strTrim_eq_self ?_
      intro c hc
      rcases List.mem_append.1 hc with h | h
      · exact hwsx c h
      · rcases List.mem_singleton.1 h with rfl
        exact hwsc
    have hne : ¬ (sx ++ [':']) = [] := by simp
    have hsplit : splitOnceColon (sx ++ [':']) = some (sx, []) :=
      splitOnceColon_append hncx
    unfold parse_line_range
    simp only [htrim, if_neg hne, hsplit, if_neg hnex, eq_self_iff_true,
      if_true, hx]
    split_ifs <;> first | rfl | omega | simp [Nat.min_self]
  · have htrim : strTrim sx = sx := strTrim_eq_self hwsx
    have hne : ¬ sx = [] := hnex
    unfold parse_line_range
    simp only [htrim, if_neg hne, splitOnceColon_eq_none hncx, hx]

/-! ## C1 — wrap-cache totals -/

theorem line_width_eq_text_width (l : Line) :
    l.width = (l.text.map charWidth).sum := by
  unfold Line.width Line.text StyledSpan.width
  simp only [List.map_flatten, List.sum_flatten, List.map_map]
  rfl

theorem wrapLoop_length_units (width lineIdx lineNumber : Nat) (hW : 0 < width) :
    ∀ (l : List Char) (idx row_start cur : Nat) (fr : Bool),
      (∀ c ∈ l, charWidth c = 1) → 1 ≤ cur → cur ≤ width →
      (wrapLoop width lineIdx lineNumber l idx row_start cur fr).length
        = (cur + l.length + width - 1) / width := by
  intro l
  induction l with
  | nil =>
      intro idx row_start cur fr _h1 hc1 hcw
      unfold wrapLoop
      rw [if_pos (Or.inl (show cur > 0 from hc1))]
      simp only [List.length_singleton, List.length_nil]
      symm
      exact Nat.div_eq_of_lt_le (by omega) (by omega)
  | cons ch rest ih =>
      intro idx row_start cur fr h1 hc1 hcw
      have hch : charWidth ch = 1 := h1 ch (by simp)
      have h1' : ∀ c ∈ rest, charWidth c = 1 := fun c hc => h1 c (by simp [hc])
      unfold wrapLoop
      simp only [hch]
      by_cases hcond : cur + 1 > width ∧ cur > 0
      · rw [if_pos hcond]
        simp only [List.length_cons]
        rw [ih (idx + 1) idx 1 false h1' (le_refl 1) hW]
        have hcurW : cur = width := by omega
        have e1 : 1 + rest.length + width - 1 = rest.length + width := by omega
        have e2 : cur + (rest.length + 1) + width - 1
            = rest.length + width + width := by omega
        rw [e1, e2, Nat.add_div_right _ hW, Nat.add_div_right _ hW,
          Nat.add_div_right _ hW]
      · rw [if_neg hcond]
        rw [ih (idx + 1) row_start (cur + 1) fr h1' (by omega) (by omega)]
        simp only [List.length_cons]
        congr 1
        omega

theorem wrapLine_length_units (width lineIdx : Nat) (l : Line) (hW : 0 < width)
    (h1 : ∀ c ∈ l.text, charWidth c = 1) :
    (wrapLine width lineIdx l).length = max 1 ((l.width + width - 1) / width) := by
  have htw : l.width = l.text.length := by
    rw [line_width_eq_text_width, List.map_congr_left h1]
    simp
  by_cases hw : l.width = 0
  · unfold wrapLine
    rw [if_pos hw, hw]
    have h0 : (0 + width - 1) / width = 0 := Nat.div_eq_of_lt (by omega)
    rw [h0]
    simp
  · unfold wrapLine
    rw [if_neg hw]
    have htne : l.text ≠ [] := by
      intro h0
      rw [h0] at htw
      exact hw (by simpa using htw)
    obtain ⟨c, rest, hrest⟩ := List.exists_cons_of_ne_nil htne
    have hch : charWidth c = 1 := h1 c (by rw [hrest]; simp)
    have h1' : ∀ d ∈ rest, charWidth d = 1 := by
      intro d hd
      exact h1 d (by rw [hrest]; simp [hd])
    rw [hrest]
    unfold wrapLoop
    simp only [hch]
    rw [if_neg (by omega)]
    rw [wrapLoop_length_units width lineIdx l.number hW rest 1 0 (0 + 1) true h1'
      (by omega) (by omega)]
    rw [htw, hrest]
    simp only [List.length_cons]
    have hge : 1 ≤ (rest.length + 1 + width - 1) / width := by
      rw [Nat.le_div_iff_mul_le hW]
      omega
    rw [Nat.max_eq_right hge]
    congr 1
    omega

theorem buildWrappedLines_length_units (lines : List Line) (width : Nat)
    (hW : 0 < width) (h1 : ∀ l ∈ lines, ∀ c ∈ l.text, charWidth c = 1) :
    (buildWrappedLines lines width).length
      = (lines.map (fun l => max 1 ((l.width + width - 1) / width))).sum := by
  unfold buildWrappedLines
  rw [List.length_flatten, List.map_map]
  have hcongr : lines.enum.map (List.length ∘ fun p => wrapLine width p.1 p.2)
      = lines.enum.map
          ((fun l => max 1 ((l.width + width - 1) / width)) ∘ Prod.snd) := by
    refine List.map_congr_left ?_
    intro p hp
    exact wrapLine_length_units width p.1 p.2 hW
      (h1 p.2 (List.snd_mem_of_mem_enum hp))
  rw [hcongr, ← List.map_map, List.enum_map_snd]

theorem totalWrapped_eq_formula (lines : List Line) (width : Nat)
    (hW : 0 < width) :
    totalWrappedLinesCore lines width
      = (lines.map (fun l => max 1 ((l.width + width - 1) / width))).sum := by
  unfold totalWrappedLinesCore
  congr 1
  refine List.map_congr_left ?_
  intro l _
  by_cases hw : l.width = 0
  · rw [if_pos hw, hw]
    have h0 : (0 + width - 1) / width = 0 := Nat.div_eq_of_lt (by omega)
    rw [h0]
    simp
  · rw [if_neg hw]
    have hge : 1 ≤ (l.width + width - 1) / width := by
      rw [Nat.le_div_iff_mul_le hW]
      have : l.width ≠ 0 := hw
      omega
    rw [Nat.max_eq_right hge]

/-- Claim C1, counterexample.  On a line of three double-width characters
with content width 3, the wrap-cache build produces 3 rows (each wide
character is pushed whole to the next row), while the claimed formula —
and `total_wrapped_lines`, which computes it — gives `ceil(6/3) = 2`. -/
theorem wrap_cache_total_cex :
    (buildWrappedLines [Line.plain 1 ['世', '世', '世']] 3).length = 3
    ∧ totalWrappedLinesCore [Line.plain 1 ['世', '世', '世']] 3 = 2
    ∧ ([Line.plain 1 ['世', '世', '世']].map
        (fun l => max 1 ((l.width + 3 - 1) / 3))).sum = 2 := by
  decide

/-- Claim C1, amended.  `total_wrapped_lines` does compute
`sum (max 1 (ceil (line.width / C)))` for every content width `C > 0`;
and the row count of the wrap-cache build equals that formula **when every
character has display width 1** (e.g. plain ASCII text).  With wider
characters the build may emit more rows than the formula (see the
counterexample), a discrepancy the source itself flags as a "simplified
calculation". -/
theorem wrap_cache_total_amended (lines : List Line) (width : Nat)
    (hW : 0 < width) :
    totalWrappedLinesCore lines width
      = (lines.map (fun l => max 1 ((l.width + width - 1) / width))).sum
    ∧ ((∀ l ∈ lines, ∀ c ∈ l.text, charWidth c = 1) →
      (buildWrappedLines lines width).length
        = totalWrappedLinesCore lines width) := by
  refine ⟨totalWrapped_eq_formula lines width hW, ?_⟩
  intro h1
  rw [buildWrappedLines_length_units lines width hW h1,
    totalWrapped_eq_formula lines width hW]

/-- Witness for `wrap_cache_total_amended` on ASCII text at width 2. -/
theorem wrap_cache_total_amended_witness :
    0 < 2
    ∧ (totalWrappedLinesCore [Line.plain 1 ['a', 'b', 'c']] 2
        = ([Line.plain 1 ['a', 'b', 'c']].map
            (fun l => max 1 ((l.width + 2 - 1) / 2))).sum
      ∧ ((∀ l ∈ [Line.plain 1 ['a', 'b', 'c']], ∀ c ∈ l.text, charWidth c = 1) →
        (buildWrappedLines [Line.plain 1 ['a', 'b', 'c']] 2).length
          = totalWrappedLinesCore [Line.plain 1 ['a', 'b', 'c']] 2)) :=
  ⟨by decide, wrap_cache_total_amended [Line.plain 1 ['a', 'b', 'c']] 2 (by decide)⟩

/-! ## C5 — follow-mode appends -/

theorem followAppend_lines (start_number : Nat) (xs : List (Nat × List Char)) :
    ∀ d : Document,
      (xs.foldl (followAppend start_number) d).lines
        = d.lines ++ xs.map (fun p => Line.plain (start_number + p.1) p.2) := by
  induction xs with
  | nil => intro d; simp
  | cons p ps ih =>
      intro d
      rw [List.foldl_cons, ih]
      simp [followAppend]

/-- Claim C5, counterexample.  With a filtered document whose single line
still carries its original number 5, a polled line is appended with number
`lines.len() + 1 = 2`, which is **not** strictly higher than the numbers
already present. -/
theorem check_follow_updates_cex :
    ((({ App.new (Document.mk [Line.plain 5 ['a', 'b', 'c']] 3 [] []) false
          none false (some ['f']) WrapMode.none 200 with
        follow_mode := true
        follow_reader := some ⟨0⟩ } : App).check_follow_updates
          (some [['x']])).document.lines.map Line.number) = [5, 2] := rfl

/-- Claim C5, amended.  Between polls, previously emitted lines never change
(the new line list is the old one plus freshly built plain lines, numbered
sequentially from `lines.len() + 1`); and **when every existing line number
is at most the line count** (true for unfiltered documents, not after a
grep/range filter), every appended line's number is strictly higher than
every number already present. -/
theorem check_follow_updates_amended (app : App) (new_lines : List (List Char))
    (hf : app.follow_mode = true) (hr : app.follow_reader.isSome = true) :
    (app.check_follow_updates (some new_lines)).document.lines
      = app.document.lines
        ++ new_lines.enum.map
            (fun p => Line.plain (app.document.lines.length + 1 + p.1) p.2)
    ∧ ((∀ l ∈ app.document.lines, l.number ≤ app.document.lines.length) →
      ∀ l ∈ app.document.lines,
      ∀ l' ∈ new_lines.enum.map
          (fun p => Line.plain (app.document.lines.length + 1 + p.1) p.2),
        l.number < l'.number) := by
  constructor
  · obtain ⟨r, hr'⟩ := Option.isSome_iff_exists.1 hr
    by_cases hempty : new_lines.isEmpty
    · rw [List.isEmpty_iff] at hempty
      subst hempty
      simp [App.check_follow_updates, hf, hr']
    · simp only [App.check_follow_updates, hf, Bool.not_true, Bool.false_eq_true,
        if_false, hr', hempty, ite_false, App.go_to_bottom]
      exact followAppend_lines _ _ _
  · intro hbound l hl l' hl'
    obtain ⟨p, _, rfl⟩ := List.mem_map.1 hl'
    have : l.number ≤ app.document.lines.length := hbound l hl
    simp only [Line.plain]
    omega

/-- Witness for `check_follow_updates_amended`: a live follow session over a
one-line document receiving one polled line. -/
theorem check_follow_updates_amended_witness :
    (({ App.new (Document.mk [Line.plain 1 ['a']] 1 [] []) false none false
          (some ['f']) WrapMode.none 200 with
        follow_mode := true
        follow_reader := some ⟨0⟩ } : App).follow_mode = true
      ∧ ({ App.new (Document.mk [Line.plain 1 ['a']] 1 [] []) false none false
            (some ['f']) WrapMode.none 200 with
          follow_mode := true
          follow_reader := some ⟨0⟩ } : App).follow_reader.isSome = true)
    ∧ (({ App.new (Document.mk [Line.plain 1 ['a']] 1 [] []) false none false
            (some ['f']) WrapMode.none 200 with
          follow_mode := true
          follow_reader := some ⟨0⟩ } : App).check_follow_updates
            (some [['b']])).document.lines
        = ({ App.new (Document.mk [Line.plain 1 ['a']] 1 [] []) false none false
              (some ['f']) WrapMode.none 200 with
            follow_mode := true
            follow_reader := some ⟨0⟩ } : App).document.lines
          ++ [['b']].enum.map
              (fun p => Line.plain
                (({ App.new (Document.mk [Line.plain 1 ['a']] 1 [] []) false none
                      false (some ['f']) WrapMode.none 200 with
                    follow_mode := true
                    follow_reader := some ⟨0⟩ } : App).document.lines.length + 1
                  + p.1) p.2) :=
  ⟨⟨rfl, rfl⟩,
   (check_follow_updates_amended
     { App.new (Document.mk [Line.plain 1 ['a']] 1 [] []) false none false
         (some ['f']) WrapMode.none 200 with
       follow_mode := true
       follow_reader := some ⟨0⟩ } [['b']] rfl rfl).1⟩

/-! ## C7 — scroll clamping -/

theorem line_count_le_total_wrapped (app : App) :
    app.document.line_count ≤ app.total_wrapped_lines := by
  unfold App.total_wrapped_lines
  by_cases h1 : app.wrap_mode ≠ WrapMode.wrap
  · rw [if_pos h1]
  · rw [if_neg h1]
    show app.document.line_count ≤
      if app.content_width = 0 then app.document.line_count
      else totalWrappedLinesCore app.document.lines app.content_width
    by_cases h2 : app.content_width = 0
    · rw [if_pos h2]
    · rw [if_neg h2]
      have hpos : 0 < app.content_width := Nat.pos_of_ne_zero h2
      unfold totalWrappedLinesCore Document.line_count
      have hlen : app.document.lines.length
          = (app.document.lines.map (fun _ => (1 : Nat))).sum := by simp
      rw [hlen]
      refine List.sum_le_sum ?_
      intro l _
      split_ifs with hw
      · exact le_refl 1
      · rw [Nat.le_div_iff_mul_le hpos]
        have : l.width ≠ 0 := hw
        omega

theorem scroll_to_line_inv (app : App) (i : Nat) :
    scrollInvariant (app.scroll_to_line i) := by
  unfold scrollInvariant App.scroll_to_line
  show min _ (app.document.line_count - app.content_height) ≤ app.max_scroll
  unfold App.max_scroll
  cases hw : app.wrap_mode with
  | none => exact Nat.min_le_right _ _
  | truncate => exact Nat.min_le_right _ _
  | wrap =>
      refine le_trans (Nat.min_le_right _ _) ?_
      exact Nat.sub_le_sub_right (line_count_le_total_wrapped app) _

/-- Claim C7, counterexample.  `set_terminal_size` records the new size (and
only invalidates the wrap cache); it never re-clamps `scroll_line`, so
growing the terminal of a bottom-scrolled viewer leaves
`scroll_line > max_scroll`.  Starting from `App::new` on a four-line
document: shrink to height 3, `go_to_bottom` (scroll 2), grow to height 10:
`max_scroll` drops to 0 while `scroll_line` stays 2. -/
theorem set_terminal_size_cex :
    (((App.new (Document.mk [Line.plain 1 ['a'], Line.plain 2 ['b'],
          Line.plain 3 ['c'], Line.plain 4 ['d']] 1 [] []) false none false
          none WrapMode.none 200).set_terminal_size 80
          3).go_to_bottom.set_terminal_size 80 10).scroll_line = 2
    ∧ (((App.new (Document.mk [Line.plain 1 ['a'], Line.plain 2 ['b'],
          Line.plain 3 ['c'], Line.plain 4 ['d']] 1 [] []) false none false
          none WrapMode.none 200).set_terminal_size 80
          3).go_to_bottom.set_terminal_size 80 10).max_scroll = 0 :=
  ⟨rfl, rfl⟩

/-- Claim C7, amended.  The invariant `0 ≤ scroll_line ≤ max_scroll` holds
in the initial state and is preserved by `scroll_down`, `scroll_up`,
`go_to_top`, `go_to_bottom`, the half-page scrolls and match navigation —
but **not** by `set_terminal_size`, which changes `max_scroll` without
re-clamping `scroll_line` (see `set_terminal_size_cex`). -/
theorem scroll_invariant_amended (app : App) (n : Nat)
    (h : scrollInvariant app) :
    scrollOpsPreserve app n
    ∧ (∀ doc sln ss ic fp wm mw, scrollInvariant (App.new doc sln ss ic fp wm mw)) := by
  have hdown : ∀ m : Nat, scrollInvariant (app.scroll_down m) := by
    intro m
    exact Nat.min_le_right _ _
  have hup : ∀ m : Nat, scrollInvariant (app.scroll_up m) := by
    intro m
    exact le_trans (Nat.sub_le _ _) h
  refine ⟨⟨hdown n, hup n, ?_, ?_, hdown _, hup _, ?_, ?_⟩, ?_⟩
  · exact Nat.zero_le _
  · exact le_refl _
  · unfold App.next_match
    cases hs : app.search_state with
    | none => exact h
    | some s =>
        by_cases hm : s.matches'.isEmpty
        · simp only [SearchState.next_match, hm, ite_true]
          exact h
        · simp only [SearchState.next_match, hm, ite_false]
          exact scroll_to_line_inv _ _
  · unfold App.prev_match
    cases hs : app.search_state with
    | none => exact h
    | some s =>
        by_cases hm : s.matches'.isEmpty
        · simp only [SearchState.prev_match, hm, ite_true]
          exact h
        · simp only [SearchState.prev_match, hm, ite_false]
          exact scroll_to_line_inv _ _
  · intro doc sln ss ic fp wm mw
    exact Nat.zero_le _

/-- Witness for `scroll_invariant_amended` on a freshly created viewer. -/
theorem scroll_invariant_amended_witness :
    scrollInvariant
      (App.new (Document.mk [] 0 [] []) false none false none WrapMode.none 200)
    ∧ (scrollOpsPreserve
        (App.new (Document.mk [] 0 [] []) false none false none WrapMode.none 200) 1
      ∧ (∀ doc sln ss ic fp wm mw,
          scrollInvariant (App.new doc sln ss ic fp wm mw))) :=
  ⟨Nat.zero_le _,
   scroll_invariant_amended
     (App.new (Document.mk [] 0 [] []) false none false none WrapMode.none 200) 1
     (Nat.zero_le _)⟩

/-! ## Interval merging (shared by C4 and C9) -/

theorem foldl_mergeStep_eq (rest : List (Nat × Nat)) :
    ∀ (done : List (Nat × Nat)) (cur : Nat × Nat),
      rest.foldl mergeStep (done ++ [cur]) = done ++ mergeSorted cur rest := by
  induction rest with
  | nil =>
      intro done cur
      simp [mergeSorted]
  | cons r rest' ih =>
      intro done cur
      have hstep : mergeStep (done ++ [cur]) r
          = if r.1 ≤ cur.2 then done ++ [(cur.1, max cur.2 r.2)]
            else (done ++ [cur]) ++ [r] := by
        unfold mergeStep
        simp only [List.getLast?_concat, List.dropLast_concat]
      rw [List.foldl_cons, hstep]
      by_cases hov : r.1 ≤ cur.2
      · rw [if_pos hov, ih done (cur.1, max cur.2 r.2)]
        simp only [mergeSorted]
        rw [if_pos hov]
      · rw [if_neg hov, ih (done ++ [cur]) r]
        simp only [mergeSorted]
        rw [if_neg hov]
        simp

theorem merge_ranges_eq (ranges : List (Nat × Nat)) (first : Nat × Nat)
    (rest : List (Nat × Nat))
    (hs : ranges.mergeSort (fun a b => decide (a.1 ≤ b.1)) = first :: rest) :
    merge_ranges ranges = mergeSorted first rest := by
  unfold merge_ranges
  rw [hs]
  simpa using foldl_mergeStep_eq rest [] first

theorem mergeSorted_head (rest : List (Nat × Nat)) :
    ∀ cur, ∃ e tail, mergeSorted cur rest = (cur.1, e) :: tail ∧ cur.2 ≤ e := by
  induction rest with
  | nil =>
      intro cur
      exact ⟨cur.2, [], by simp [mergeSorted], le_refl _⟩
  | cons r rest' ih =>
      intro cur
      by_cases hov : r.1 ≤ cur.2
      · obtain ⟨e, tail, heq, hle⟩ := ih (cur.1, max cur.2 r.2)
        refine ⟨e, tail, ?_, ?_⟩
        · simp only [mergeSorted]
          rw [if_pos hov]
          exact heq
        · exact le_trans (le_max_left _ _) hle
      · refine ⟨cur.2, mergeSorted r rest', ?_, le_refl _⟩
        simp only [mergeSorted]
        rw [if_neg hov]

theorem mergeSorted_ne_nil (cur : Nat × Nat) (rest : List (Nat × Nat)) :
    mergeSorted cur rest ≠ [] := by
  obtain ⟨e, tail, heq, _⟩ := mergeSorted_head rest cur
  rw [heq]
  simp

theorem mergeSorted_coverage (rest : List (Nat × Nat)) :
    ∀ cur, (cur :: rest).Pairwise (fun a b => a.1 ≤ b.1) →
      ∀ i, (∃ q ∈ mergeSorted cur rest, memIv i q)
        ↔ (memIv i cur ∨ ∃ r ∈ rest, memIv i r) := by
  induction rest with
  | nil =>
      intro cur _ i
      simp [mergeSorted]
  | cons r rest' ih =>
      intro cur hp i
      obtain ⟨hhead, htail⟩ := List.pairwise_cons.1 hp
      have hcr : cur.1 ≤ r.1 := hhead r (by simp)
      by_cases hov : r.1 ≤ cur.2
      · have hp' : ((cur.1, max cur.2 r.2) :: rest').Pairwise
            (fun a b => a.1 ≤ b.1) := by
          rw [List.pairwise_cons]
          exact ⟨fun b hb => hhead b (by simp [hb]), htail.of_cons⟩
        have hmerged : memIv i (cur.1, max cur.2 r.2)
            ↔ memIv i cur ∨ memIv i r := by
          unfold memIv
          rcases Nat.le_total cur.2 r.2 with hmx | hmx
          · rw [Nat.max_eq_right hmx]
            constructor
            · rintro ⟨hi1, hi2⟩
              by_cases hic : i < cur.2
              · exact Or.inl ⟨hi1, hic⟩
              · exact Or.inr ⟨by omega, hi2⟩
            · rintro (⟨hi1, hi2⟩ | ⟨hi1, hi2⟩)
              · exact ⟨hi1, by omega⟩
              · exact ⟨by omega, hi2⟩
          · rw [Nat.max_eq_left hmx]
            constructor
            · rintro ⟨hi1, hi2⟩
              exact Or.inl ⟨hi1, hi2⟩
            · rintro (⟨hi1, hi2⟩ | ⟨hi1, hi2⟩)
              · exact ⟨hi1, hi2⟩
              · exact ⟨by omega, by omega⟩
        constructor
        · intro hex
          have := (by
            simpa only [mergeSorted, if_pos hov] using hex :
              ∃ q ∈ mergeSorted (cur.1, max cur.2 r.2) rest', memIv i q)
          rcases (ih (cur.1, max cur.2 r.2) hp' i).1 this with hm | ⟨q, hq, hmq⟩
          · rcases hmerged.1 hm with h | h
            · exact Or.inl h
            · exact Or.inr ⟨r, by simp, h⟩
          · exact Or.inr ⟨q, by simp [hq], hmq⟩
        · intro hex
          have hgoal : ∃ q ∈ mergeSorted (cur.1, max cur.2 r.2) rest', memIv i q := by
            refine (ih (cur.1, max cur.2 r.2) hp' i).2 ?_
            rcases hex with hm | ⟨q, hq, hmq⟩
            · exact Or.inl (hmerged.2 (Or.inl hm))
            · rcases List.mem_cons.1 hq with rfl | hq'
              · exact Or.inl (hmerged.2 (Or.inr hmq))
              · exact Or.inr ⟨q, hq', hmq⟩
          simpa only [mergeSorted, if_pos hov] using hgoal
      · constructor
        · intro hex
          have hex' : ∃ q ∈ cur :: mergeSorted r rest', memIv i q := by
            simpa only [mergeSorted, if_neg hov] using hex
          obtain ⟨q, hq, hmq⟩ := hex'
          rcases List.mem_cons.1 hq with rfl | hq'
          · exact Or.inl hmq
          · rcases (ih r htail i).1 ⟨q, hq', hmq⟩ with h | ⟨q', hq'', hm'⟩
            · exact Or.inr ⟨r, by simp, h⟩
            · exact Or.inr ⟨q', by simp [hq''], hm'⟩
        · intro hex
          have hgoal : ∃ q ∈ cur :: mergeSorted r rest', memIv i q := by
            rcases hex with hm | ⟨q, hq, hmq⟩
            · exact ⟨cur, by simp, hm⟩
            · rcases List.mem_cons.1 hq with rfl | hq'
              · obtain ⟨q', hq'', hm'⟩ := (ih q htail i).2 (Or.inl hmq)
                exact ⟨q', by simp [hq''], hm'⟩
              · obtain ⟨q', hq'', hm'⟩ := (ih r htail i).2 (Or.inr ⟨q, hq', hmq⟩)
                exact ⟨q', by simp [hq''], hm'⟩
          simpa only [mergeSorted, if_neg hov] using hgoal

theorem mergeSorted_gaps (rest : List (Nat × Nat)) :
    ∀ cur, (cur :: rest).Pairwise (fun a b => a.1 ≤ b.1) →
      (mergeSorted cur rest).Chain' (fun p q => p.2 < q.1) := by
  induction rest with
  | nil =>
      intro cur _
      simp [mergeSorted]
  | cons r rest' ih =>
      intro cur hp
      obtain ⟨hhead, htail⟩ := List.pairwise_cons.1 hp
      by_cases hov : r.1 ≤ cur.2
      · have hp' : ((cur.1, max cur.2 r.2) :: rest').Pairwise
            (fun a b => a.1 ≤ b.1) := by
          rw [List.pairwise_cons]
          exact ⟨fun b hb => hhead b (by simp [hb]), htail.of_cons⟩
        simpa only [mergeSorted, if_pos hov] using ih (cur.1, max cur.2 r.2) hp'
      · have hch : (mergeSorted r rest').Chain' (fun p q => p.2 < q.1) :=
          ih r htail
        obtain ⟨e, tail, heq, _⟩ := mergeSorted_head rest' r
        have hcons : (cur :: mergeSorted r rest').Chain'
            (fun p q => p.2 < q.1) := by
          rw [heq]
          rw [heq] at hch
          exact List.Chain'.cons (by show cur.2 < r.1; omega) hch
        simpa only [mergeSorted, if_neg hov] using hcons

theorem mergeSorted_bounds (N : Nat) (rest : List (Nat × Nat)) :
    ∀ cur, cur.2 ≤ N → (∀ r ∈ rest, r.2 ≤ N) →
      ∀ q ∈ mergeSorted cur rest, q.2 ≤ N := by
  induction rest with
  | nil =>
      intro cur hc _ q hq
      simp only [mergeSorted, List.mem_singleton] at hq
      rw [hq]
      exact hc
  | cons r rest' ih =>
      intro cur hc hr q hq
      by_cases hov : r.1 ≤ cur.2
      · refine ih (cur.1, max cur.2 r.2) ?_ (fun r' h' => hr r' (by simp [h'])) q ?_
        · have := hr r (by simp)
          simp only []
          omega
        · simpa only [mergeSorted, if_pos hov] using hq
      · have hq' : q ∈ cur :: mergeSorted r rest' := by
          simpa only [mergeSorted, if_neg hov] using hq
        rcases List.mem_cons.1 hq' with rfl | hq''
        · exact hc
        · exact ih r (hr r (by simp)) (fun r' h' => hr r' (by simp [h'])) q hq''

theorem mergeSorted_pos (rest : List (Nat × Nat)) :
    ∀ cur, cur.1 < cur.2 → (∀ r ∈ rest, r.1 < r.2) →
      ∀ q ∈ mergeSorted cur rest, q.1 < q.2 := by
  induction rest with
  | nil =>
      intro cur hc _ q hq
      simp only [mergeSorted, List.mem_singleton] at hq
      rw [hq]
      exact hc
  | cons r rest' ih =>
      intro cur hc hr q hq
      by_cases hov : r.1 ≤ cur.2
      · refine ih (cur.1, max cur.2 r.2) ?_ (fun r' h' => hr r' (by simp [h'])) q ?_
        · simp only []
          omega
        · simpa only [mergeSorted, if_pos hov] using hq
      · have hq' : q ∈ cur :: mergeSorted r rest' := by
          simpa only [mergeSorted, if_neg hov] using hq
        rcases List.mem_cons.1 hq' with rfl | hq''
        · exact hc
        · exact ih r (hr r (by simp)) (fun r' h' => hr r' (by simp [h'])) q hq''

theorem mergeSorted_of_gaps (rest : List (Nat × Nat)) :
    ∀ cur, (cur :: rest).Chain' (fun a b => a.2 < b.1) →
      mergeSorted cur rest = cur :: rest := by
  induction rest with
  | nil =>
      intro cur _
      simp [mergeSorted]
  | cons r rest' ih =>
      intro cur hch
      rw [List.chain'_cons] at hch
      simp only [mergeSorted]
      rw [if_neg (by omega), ih r hch.2]

/-- Claim C9, counterexample.  `[(0,2), (2,4)]` is sorted and its intervals
are disjoint as sets of indices (they share no element, being merely
adjacent), yet `merge_ranges` coalesces them: merging is **not** the
identity on sorted pairwise-disjoint input. -/
theorem merge_adjacent_cex :
    merge_ranges [(0, 2), (2, 4)] = [(0, 4)]
    ∧ merge_ranges [(0, 2), (2, 4)] ≠ [(0, 2), (2, 4)] := by
  have hs : ([(0, 2), (2, 4)] : List (Nat × Nat)).mergeSort
      (fun a b => decide (a.1 ≤ b.1)) = [(0, 2), (2, 4)] :=
    List.mergeSort_of_sorted (by decide)
  have h := merge_ranges_eq [(0, 2), (2, 4)] (0, 2) [(2, 4)] hs
  rw [h]
  refine ⟨by decide, by decide⟩

/-- Claim C9, amended.  `merge_ranges` is the identity on a list of
intervals sorted by start whose consecutive intervals are separated by a
**strict gap** (`prev.end < next.start`); merely disjoint-but-adjacent
intervals (`prev.end = next.start`) are coalesced, as the counterexample
shows. -/
theorem merge_disjoint_amended (l : List (Nat × Nat))
    (h : l.Chain' (fun a b => a.1 ≤ b.1 ∧ a.2 < b.1)) :
    merge_ranges l = l := by
  haveI : IsTrans (Nat × Nat) (fun a b => a.1 ≤ b.1) :=
    ⟨fun _ _ _ h1 h2 => le_trans h1 h2⟩
  have hsorted : l.Pairwise (fun a b => (decide (a.1 ≤ b.1)) = true) := by
    have h2 : l.Pairwise (fun a b : Nat × Nat => a.1 ≤ b.1) :=
      (List.chain'_iff_pairwise).1 (h.imp (fun _ _ hab => hab.1))
    exact h2.imp (fun hab => decide_eq_true hab)
  cases l with
  | nil => simp [merge_ranges, List.mergeSort_nil]
  | cons f rest =>
      rw [merge_ranges_eq (f :: rest) f rest (List.mergeSort_of_sorted hsorted)]
      exact mergeSorted_of_gaps rest f (h.imp (fun _ _ hab => hab.2))

/-- Witness for `merge_disjoint_amended` on two gap-separated intervals. -/
theorem merge_disjoint_amended_witness :
    ([(0, 2), (3, 5)] : List (Nat × Nat)).Chain'
        (fun a b => a.1 ≤ b.1 ∧ a.2 < b.1)
    ∧ merge_ranges [(0, 2), (3, 5)] = [(0, 2), (3, 5)] :=
  ⟨by simp [List.chain'_cons],
   merge_disjoint_amended [(0, 2), (3, 5)] (by simp [List.chain'_cons])⟩

/-! ## C4 — grep context windows and separators -/

theorem grepEmitLine_number (doc : Document) (mi : List Nat) (i : Nat) :
    (grepEmitLine doc mi i).number = (doc.lines.getD i default).number := by
  unfold grepEmitLine
  dsimp only
  split_ifs <;> rfl

theorem grepEmitLine_text (doc : Document) (mi : List Nat) (i : Nat) :
    (grepEmitLine doc mi i).text = (doc.lines.getD i default).text := by
  unfold grepEmitLine
  dsimp only
  split_ifs with h
  · rfl
  · simp [Line.text]

theorem mem_grepBlock_iff (doc : Document) (mi : List Nat) (q : Nat × Nat)
    (l : Line) :
    l ∈ grepBlock doc mi q ↔ ∃ i, memIv i q ∧ l = grepEmitLine doc mi i := by
  unfold grepBlock
  rw [List.mem_map]
  constructor
  · rintro ⟨i, hi, rfl⟩
    rw [List.mem_range'_1] at hi
    exact ⟨i, by unfold memIv; omega, rfl⟩
  · rintro ⟨i, hi, rfl⟩
    unfold memIv at hi
    exact ⟨i, List.mem_range'_1.2 (by omega), rfl⟩

theorem grepBlock_ne_nil (doc : Document) (mi : List Nat) (q : Nat × Nat)
    (hq : q.1 < q.2) : grepBlock doc mi q ≠ [] := by
  unfold grepBlock
  simp [List.range'_eq_nil]
  omega

theorem grepFold_structure (doc : Document) (mi : List Nat)
    (ms : List (Nat × Nat)) :
    ∀ (acc : List Line) (last_end : Nat),
      acc ≠ [] →
      (∀ m₀, ms.head? = some m₀ → last_end < m₀.1) →
      ms.Chain' (fun p q => p.2 < q.1) →
      (ms.foldl (grepCollect doc mi) (acc, last_end)).1
        = acc ++ (ms.map (fun m => Line.separator :: grepBlock doc mi m)).flatten := by
  induction ms with
  | nil =>
      intro acc last_end _ _ _
      simp
  | cons m ms' ih =>
      intro acc last_end hacc hhead hch
      rw [List.foldl_cons]
      have hlt : last_end < m.1 := hhead m rfl
      have hstep : grepCollect doc mi (acc, last_end) m
          = (acc ++ [Line.separator] ++ grepBlock doc mi m, m.2) := by
        unfold grepCollect
        dsimp only
        rw [if_pos ⟨by simpa [List.isEmpty_iff] using hacc, hlt⟩]
        rfl
      rw [hstep]
      rw [ih (acc ++ [Line.separator] ++ grepBlock doc mi m) m.2 (by simp) ?_ hch.tail]
      · simp
      · intro m₀ hm₀
        cases ms' with
        | nil => simp at hm₀
        | cons a t =>
            simp only [List.head?_cons, Option.some.injEq] at hm₀
            subst hm₀
            exact (List.chain'_cons.1 hch).1

theorem grep_lines_structure (doc : Document) (mi : List Nat)
    (m0 : Nat × Nat) (ms : List (Nat × Nat))
    (hch : (m0 :: ms).Chain' (fun p q => p.2 < q.1))
    (hpos0 : m0.1 < m0.2) :
    ((m0 :: ms).foldl (grepCollect doc mi) ([], 0)).1
      = grepBlock doc mi m0
        ++ (ms.map (fun m => Line.separator :: grepBlock doc mi m)).flatten := by
  rw [List.foldl_cons]
  have hstep : grepCollect doc mi ([], 0) m0 = (grepBlock doc mi m0, m0.2) := by
    unfold grepCollect
    dsimp only
    rw [if_neg (by simp)]
    simp [grepBlock]
  rw [hstep]
  refine grepFold_structure doc mi ms (grepBlock doc mi m0) m0.2
    (grepBlock_ne_nil doc mi m0 hpos0) ?_ hch.tail
  intro m₀ hm₀
  cases ms with
  | nil => simp at hm₀
  | cons a t =>
      simp only [List.head?_cons, Option.some.injEq] at hm₀
      subst hm₀
      exact (List.chain'_cons.1 hch).1

theorem flatten_intersperse_sep (sep : Line) (bs : List (List Line)) :
    ∀ b0, (List.intersperse [sep] (b0 :: bs)).flatten
      = b0 ++ (bs.map (fun b => sep :: b)).flatten := by
  induction bs with
  | nil =>
      intro b0
      simp
  | cons b1 bs' ih =>
      intro b0
      rw [List.intersperse_cons_cons, List.flatten_cons, List.flatten_cons, ih b1]
      simp

theorem grep_filter_lines (doc : Document) (options : GrepOptions)
    (hN : ¬ doc.lines.length = 0)
    (hmi : ¬ ((List.range doc.lines.length).filter
        (fun i => options.pattern (doc.lines.getD i default).text)).isEmpty = true) :
    (grep_filter doc options).lines
      = ((merge_ranges (((List.range doc.lines.length).filter
            (fun i => options.pattern (doc.lines.getD i default).text)).map
            (fun m => (m - options.before,
              min (m + options.after + 1) doc.lines.length)))).foldl
          (grepCollect doc ((List.range doc.lines.length).filter
            (fun i => options.pattern (doc.lines.getD i default).text)))
          ([], 0)).1 := by
  unfold grep_filter
  rw [if_neg hN]
  dsimp only
  rw [if_neg hmi]

/-- Claim C4: with at least one matching line, the grep filter emits exactly
the document lines whose index lies in some context window
`[m - before, m + after]` around a match `m` (preserving number and raw
text), and its output decomposes into non-empty separator-free blocks joined
by single `--` separator rows — so separators sit exactly between
consecutive merged windows and never first or last. -/
theorem grep_context_separators (doc : Document) (options : GrepOptions)
    (hnum : ∀ l ∈ doc.lines, 1 ≤ l.number)
    (hinj : doc.lines.Pairwise (fun a b => a.number ≠ b.number))
    (hmatch : ∃ l ∈ doc.lines, options.pattern l.text = true) :
    (∀ i, i < doc.lines.length →
      ((∃ m, m < doc.lines.length
          ∧ options.pattern ((doc.lines.getD m default).text) = true
          ∧ m ≤ i + options.before ∧ i ≤ m + options.after)
        ↔ ∃ l ∈ (grep_filter doc options).lines,
            l.number = (doc.lines.getD i default).number
            ∧ l.text = (doc.lines.getD i default).text))
    ∧ (∃ blocks : List (List Line), blocks ≠ []
        ∧ (∀ b ∈ blocks, b ≠ [] ∧ ∀ l ∈ b, l.number ≠ 0)
        ∧ (grep_filter doc options).lines
          = (List.intersperse [Line.separator] blocks).flatten) := by
  have hN : ¬ doc.lines.length = 0 := by
    intro h0
    obtain ⟨l, hl, _⟩ := hmatch
    rw [List.length_eq_zero] at h0
    rw [h0] at hl
    simp at hl
  set mi := (List.range doc.lines.length).filter
    (fun i => options.pattern (doc.lines.getD i default).text) with hmi_def
  have hmem_mi : ∀ m, m ∈ mi ↔ m < doc.lines.length
      ∧ options.pattern ((doc.lines.getD m default).text) = true := by
    intro m
    rw [hmi_def, List.mem_filter, List.mem_range]
  have hmi_ne : mi ≠ [] := by
    obtain ⟨l, hl, hp⟩ := hmatch
    obtain ⟨j, hj, rfl⟩ := List.mem_iff_getElem.1 hl
    intro h0
    have hjmi : j ∈ mi := (hmem_mi j).2
      ⟨hj, by rwa [List.getD_eq_getElem _ _ hj]⟩
    rw [h0] at hjmi
    simp at hjmi
  set ranges := mi.map (fun m => (m - options.before,
    min (m + options.after + 1) doc.lines.length)) with hranges_def
  have hr_pos : ∀ q ∈ ranges, q.1 < q.2 := by
    intro q hq
    rw [hranges_def, List.mem_map] at hq
    obtain ⟨m, hm, rfl⟩ := hq
    have hmN : m < doc.lines.length := ((hmem_mi m).1 hm).1
    dsimp only
    rw [Nat.lt_min]
    omega
  have hr_bound : ∀ q ∈ ranges, q.2 ≤ doc.lines.length := by
    intro q hq
    rw [hranges_def, List.mem_map] at hq
    obtain ⟨m, _, rfl⟩ := hq
    exact min_le_right _ _
  have hr_sorted : ranges.Pairwise (fun a b => a.1 ≤ b.1) := by
    rw [hranges_def, List.pairwise_map]
    refine ((List.pairwise_lt_range _).filter _).imp ?_
    intro a b hab
    dsimp only
    omega
  have hranges_ne : ranges ≠ [] := by
    rw [hranges_def]
    simpa using hmi_ne
  obtain ⟨r0, rtail, hr_eq⟩ := List.exists_cons_of_ne_nil hranges_ne
  have hmerge : merge_ranges ranges = mergeSorted r0 rtail :=
    merge_ranges_eq ranges r0 rtail
      (by rw [List.mergeSort_of_sorted
          (hr_sorted.imp (fun h => decide_eq_true h)), hr_eq])
  have hr_sorted' : (r0 :: rtail).Pairwise (fun a b => a.1 ≤ b.1) :=
    hr_eq ▸ hr_sorted
  have hcov : ∀ i, (∃ q ∈ mergeSorted r0 rtail, memIv i q)
      ↔ ∃ r ∈ ranges, memIv i r := by
    intro i
    rw [mergeSorted_coverage rtail r0 hr_sorted' i, hr_eq]
    constructor
    · rintro (h | ⟨r, hr, h⟩)
      · exact ⟨r0, by simp, h⟩
      · exact ⟨r, by simp [hr], h⟩
    · rintro ⟨r, hr, h⟩
      rcases List.mem_cons.1 hr with rfl | hr'
      · exact Or.inl h
      · exact Or.inr ⟨r, hr', h⟩
  have hgaps : (mergeSorted r0 rtail).Chain' (fun p q => p.2 < q.1) :=
    mergeSorted_gaps rtail r0 hr_sorted'
  have hpos_m : ∀ q ∈ mergeSorted r0 rtail, q.1 < q.2 :=
    mergeSorted_pos rtail r0 (hr_pos r0 (by rw [hr_eq]; simp))
      (fun r h => hr_pos r (by rw [hr_eq]; simp [h]))
  have hbound_m : ∀ q ∈ mergeSorted r0 rtail, q.2 ≤ doc.lines.length :=
    mergeSorted_bounds doc.lines.length rtail r0
      (hr_bound r0 (by rw [hr_eq]; simp))
      (fun r h => hr_bound r (by rw [hr_eq]; simp [h]))
  obtain ⟨e0, mtail, hm_eq, _⟩ := mergeSorted_head rtail r0
  have hout : (grep_filter doc options).lines
      = grepBlock doc mi (r0.1, e0)
        ++ (mtail.map (fun m => Line.separator :: grepBlock doc mi m)).flatten := by
    rw [grep_filter_lines doc options hN
      (by rw [← hmi_def, List.isEmpty_iff]; exact hmi_ne)]
    rw [← hmi_def, ← hranges_def, hmerge, hm_eq]
    exact grep_lines_structure doc mi (r0.1, e0) mtail (hm_eq ▸ hgaps)
      (hpos_m (r0.1, e0) (by rw [hm_eq]; simp))
  have hmem_out : ∀ l, l ∈ (grep_filter doc options).lines
      ↔ ((∃ q ∈ mergeSorted r0 rtail, l ∈ grepBlock doc mi q)
        ∨ (mtail ≠ [] ∧ l = Line.separator)) := by
    intro l
    rw [hout]
    simp only [List.mem_append, List.mem_flatten, List.mem_map]
    constructor
    · rintro (h | ⟨lb, ⟨m, hm, rfl⟩, hl⟩)
      · exact Or.inl ⟨(r0.1, e0), by rw [hm_eq]; simp, h⟩
      · rcases List.mem_cons.1 hl with rfl | h'
        · refine Or.inr ⟨?_, rfl⟩
          intro h0
          rw [h0] at hm
          simp at hm
        · exact Or.inl ⟨m, by rw [hm_eq]; simp [hm], h'⟩
    · rintro (⟨q, hq, hl⟩ | ⟨hne, rfl⟩)
      · rw [hm_eq] at hq
        rcases List.mem_cons.1 hq with rfl | hq'
        · exact Or.inl hl
        · exact Or.inr ⟨Line.separator :: grepBlock doc mi q,
            ⟨q, hq', rfl⟩, by simp [hl]⟩
      · obtain ⟨m, hm⟩ := List.exists_mem_of_ne_nil mtail hne
        exact Or.inr ⟨Line.separator :: grepBlock doc mi m,
          ⟨m, hm, rfl⟩, by simp⟩
  have hinj' : ∀ j i, j < doc.lines.length → i < doc.lines.length →
      (doc.lines.getD j default).number = (doc.lines.getD i default).number
      → j = i := by
    intro j i hj hi heq
    rw [List.getD_eq_getElem _ _ hj, List.getD_eq_getElem _ _ hi] at heq
    by_contra hne
    rcases Nat.lt_or_ge j i with hlt | hge
    · exact (List.pairwise_iff_getElem.1 hinj j i hj hi hlt) heq
    · have hlt : i < j := by omega
      exact (List.pairwise_iff_getElem.1 hinj i j hi hj hlt) heq.symm
  constructor
  · intro i hi
    constructor
    · rintro ⟨m, hmN, hp, hm1, hm2⟩
      have hm_mi : m ∈ mi := (hmem_mi m).2 ⟨hmN, hp⟩
      have hr : ∃ r ∈ ranges, memIv i r := by
        refine ⟨(m - options.before,
          min (m + options.after + 1) doc.lines.length), ?_, ?_⟩
        · rw [hranges_def]
          exact List.mem_map_of_mem _ hm_mi
        · unfold memIv
          dsimp only
          rw [Nat.lt_min]
          omega
      obtain ⟨q, hq, hiq⟩ := (hcov i).2 hr
      refine ⟨grepEmitLine doc mi i, ?_, grepEmitLine_number doc mi i,
        grepEmitLine_text doc mi i⟩
      exact (hmem_out _).2
        (Or.inl ⟨q, hq, (mem_grepBlock_iff doc mi q _).2 ⟨i, hiq, rfl⟩⟩)
    · rintro ⟨l, hl, hnum_eq, _htext_eq⟩
      rcases (hmem_out l).1 hl with ⟨q, hq, hlq⟩ | ⟨_, rfl⟩
      · obtain ⟨j, hjq, rfl⟩ := (mem_grepBlock_iff doc mi q l).1 hlq
        have hjN : j < doc.lines.length :=
          lt_of_lt_of_le hjq.2 (hbound_m q hq)
        have hji : j = i := hinj' j i hjN hi
          (by rw [← grepEmitLine_number doc mi j]; exact hnum_eq)
        subst hji
        obtain ⟨r, hr, hjr⟩ := (hcov j).1 ⟨q, hq, hjq⟩
        rw [hranges_def, List.mem_map] at hr
        obtain ⟨m, hm, rfl⟩ := hr
        have hmm := (hmem_mi m).1 hm
        unfold memIv at hjr
        dsimp only at hjr
        rw [Nat.lt_min] at hjr
        exact ⟨m, hmm.1, hmm.2, by omega, by omega⟩
      · exfalso
        have h1 : (1 : Nat) ≤ (doc.lines.getD i default).number := by
          rw [List.getD_eq_getElem _ _ hi]
          exact hnum _ (List.getElem_mem hi)
        rw [← hnum_eq] at h1
        simp [Line.separator] at h1
  · refine ⟨((r0.1, e0) :: mtail).map (grepBlock doc mi), by simp, ?_, ?_⟩
    · intro b hb
      rw [List.mem_map] at hb
      obtain ⟨q, hq, rfl⟩ := hb
      have hq' : q ∈ mergeSorted r0 rtail := by
        rw [hm_eq]
        exact hq
      refine ⟨grepBlock_ne_nil doc mi q (hpos_m q hq'), ?_⟩
      intro l hl
      obtain ⟨j, hjq, rfl⟩ := (mem_grepBlock_iff doc mi q l).1 hl
      have hjN : j < doc.lines.length :=
        lt_of_lt_of_le hjq.2 (hbound_m q hq')
      rw [grepEmitLine_number]
      have h1 : (1 : Nat) ≤ (doc.lines.getD j default).number := by
        rw [List.getD_eq_getElem _ _ hjN]
        exact hnum _ (List.getElem_mem hjN)
      omega
    · rw [List.map_cons, flatten_intersperse_sep, hout, List.map_map]
      rfl

/-- Witness for `grep_context_separators`: matching `b` in `a/b/c` with one
line of leading context. -/
theorem grep_context_separators_witness :
    ((∀ l ∈ exGrepDoc.lines, 1 ≤ l.number)
      ∧ exGrepDoc.lines.Pairwise (fun a b => a.number ≠ b.number)
      ∧ (∃ l ∈ exGrepDoc.lines, exGrepOpts.pattern l.text = true))
    ∧ ((∀ i, i < exGrepDoc.lines.length →
        ((∃ m, m < exGrepDoc.lines.length
            ∧ exGrepOpts.pattern ((exGrepDoc.lines.getD m default).text) = true
            ∧ m ≤ i + exGrepOpts.before ∧ i ≤ m + exGrepOpts.after)
          ↔ ∃ l ∈ (grep_filter exGrepDoc exGrepOpts).lines,
              l.number = (exGrepDoc.lines.getD i default).number
              ∧ l.text = (exGrepDoc.lines.getD i default).text))
      ∧ (∃ blocks : List (List Line), blocks ≠ []
          ∧ (∀ b ∈ blocks, b ≠ [] ∧ ∀ l ∈ b, l.number ≠ 0)
          ∧ (grep_filter exGrepDoc exGrepOpts).lines
            = (List.intersperse [Line.separator] blocks).flatten)) :=
  ⟨⟨by decide, by decide, by decide⟩,
   grep_context_separators exGrepDoc exGrepOpts (by decide) (by decide)
     (by decide)⟩

/-! ## C3 — search-overlay non-destructiveness -/

theorem spansText_append (a b : List StyledSpan) :
    spansText (a ++ b) = spansText a ++ spansText b := by
  simp [spansText]

theorem spansText_singleton (t : List Char) (st : SpanStyle) :
    spansText [⟨t, st⟩] = t := by
  simp [spansText]

theorem take_append_slice {l : List Char} {a b : Nat} (hab : a ≤ b) :
    l.take a ++ slice l a b = l.take b := by
  unfold slice
  conv_rhs => rw [show b = a + (b - a) by omega, List.take_add]

theorem spanPiecesStep_skip (st : SpanStyle) (span : StyledSpan) (sp : Nat)
    (acc : List StyledSpan × Nat) (m : Nat × Nat)
    (h : m.2 ≤ sp ∨ sp + span.text.length ≤ m.1) :
    spanPiecesStep st span sp acc m = acc := by
  unfold spanPiecesStep
  rw [if_pos h]

theorem spanPiecesStep_hit (st : SpanStyle) (span : StyledSpan) (sp : Nat)
    (spans : List StyledSpan) (lp : Nat) (m : Nat × Nat)
    (hskip : ¬(m.2 ≤ sp ∨ sp + span.text.length ≤ m.1))
    (h_lp : lp ≤ min (m.1 - sp) span.text.length)
    (hm12 : m.1 ≤ m.2)
    (ht : spansText spans = span.text.take lp) :
    spansText (spanPiecesStep st span sp (spans, lp) m).1
        = span.text.take (min (m.2 - sp) span.text.length)
      ∧ (spanPiecesStep st span sp (spans, lp) m).2
        = min (m.2 - sp) span.text.length := by
  have h_ols_ole : min (m.1 - sp) span.text.length
      ≤ min (m.2 - sp) span.text.length :=
    min_le_min (Nat.sub_le_sub_right hm12 sp) (le_refl _)
  unfold spanPiecesStep
  rw [if_neg hskip]
  dsimp only
  by_cases h1 : lp < min (m.1 - sp) span.text.length
  · rw [if_pos h1]
    by_cases h2 : min (m.1 - sp) span.text.length
        < min (m.2 - sp) span.text.length
    · rw [if_pos h2]
      refine ⟨?_, rfl⟩
      rw [spansText_append, spansText_append, ht, spansText_singleton,
        spansText_singleton, take_append_slice (le_of_lt h1),
        take_append_slice (le_of_lt h2)]
    · rw [if_neg h2]
      have he : min (m.1 - sp) span.text.length
          = min (m.2 - sp) span.text.length :=
        le_antisymm h_ols_ole (not_lt.1 h2)
      refine ⟨?_, rfl⟩
      rw [spansText_append, ht, spansText_singleton,
        take_append_slice (le_of_lt h1), he]
  · have hlp : lp = min (m.1 - sp) span.text.length :=
      le_antisymm h_lp (not_lt.1 h1)
    rw [if_neg h1]
    by_cases h2 : min (m.1 - sp) span.text.length
        < min (m.2 - sp) span.text.length
    · rw [if_pos h2]
      refine ⟨?_, rfl⟩
      rw [spansText_append, ht, spansText_singleton, hlp,
        take_append_slice (le_of_lt h2)]
    · rw [if_neg h2]
      have he : min (m.1 - sp) span.text.length
          = min (m.2 - sp) span.text.length :=
        le_antisymm h_ols_ole (not_lt.1 h2)
      exact ⟨by rw [ht, hlp, he], rfl⟩

theorem spanFold_text (st : SpanStyle) (span : StyledSpan) (sp : Nat) :
    ∀ (ms : List (Nat × Nat)) (spans : List StyledSpan) (lp : Nat),
      ms.Pairwise (fun a b => a.2 ≤ b.1) →
      (∀ m ∈ ms, m.1 ≤ m.2) →
      spansText spans = span.text.take lp →
      lp ≤ span.text.length →
      (∀ m ∈ ms, lp ≤ min (m.1 - sp) span.text.length) →
      spansText (ms.foldl (spanPiecesStep st span sp) (spans, lp)).1
          = span.text.take (ms.foldl (spanPiecesStep st span sp) (spans, lp)).2
        ∧ (ms.foldl (spanPiecesStep st span sp) (spans, lp)).2
          ≤ span.text.length := by
  intro ms
  induction ms with
  | nil =>
      intro spans lp _ _ ht hle _
      exact ⟨ht, hle⟩
  | cons m rest ih =>
      intro spans lp hord hwf ht hle hlb
      obtain ⟨hhead, htail⟩ := List.pairwise_cons.1 hord
      have hwf' : ∀ m' ∈ rest, m'.1 ≤ m'.2 := fun m' h' => hwf m' (by simp [h'])
      rw [List.foldl_cons]
      by_cases hskip : m.2 ≤ sp ∨ sp + span.text.length ≤ m.1
      · rw [spanPiecesStep_skip st span sp _ m hskip]
        exact ih spans lp htail hwf' ht hle
          (fun m' h' => hlb m' (by simp [h']))
      · obtain ⟨ht', he2⟩ := spanPiecesStep_hit st span sp spans lp m hskip
          (hlb m (by simp)) (hwf m (by simp)) ht
        have hle' : (spanPiecesStep st span sp (spans, lp) m).2
            ≤ span.text.length := by
          rw [he2]
          exact min_le_right _ _
        have hlb' : ∀ m' ∈ rest,
            (spanPiecesStep st span sp (spans, lp) m).2
              ≤ min (m'.1 - sp) span.text.length := by
          intro m' h'
          rw [he2]
          exact min_le_min (Nat.sub_le_sub_right (hhead m' h') sp) (le_refl _)
        have ht'' : spansText (spanPiecesStep st span sp (spans, lp) m).1
            = span.text.take (spanPiecesStep st span sp (spans, lp) m).2 := by
          rw [ht', he2]
        have := ih (spanPiecesStep st span sp (spans, lp) m).1
          (spanPiecesStep st span sp (spans, lp) m).2 htail hwf' ht'' hle' hlb'
        simpa using this

theorem spanPieces_text (st : SpanStyle) (ms : List (Nat × Nat)) (sp : Nat)
    (span : StyledSpan)
    (hord : ms.Pairwise (fun a b => a.2 ≤ b.1))
    (hwf : ∀ m ∈ ms, m.1 ≤ m.2) :
    spansText (spanPieces st ms sp span) = span.text := by
  obtain ⟨ht, hle⟩ := spanFold_text st span sp ms [] 0 hord hwf
    (by simp [spansText]) (by omega) (fun m _ => by omega)
  unfold spanPieces
  dsimp only
  by_cases hlt : (ms.foldl (spanPiecesStep st span sp) ([], 0)).2
      < span.text.length
  · rw [if_pos hlt, spansText_append, ht, spansText_singleton,
      take_append_slice (le_of_lt hlt)]
    exact List.take_length span.text
  · rw [if_neg hlt]
    have : (ms.foldl (spanPiecesStep st span sp) ([], 0)).2
        = span.text.length := by omega
    rw [ht, this]
    exact List.take_length span.text

theorem overlayFold_text (ms : List (Nat × Nat))
    (hord : ms.Pairwise (fun a b => a.2 ≤ b.1))
    (hwf : ∀ m ∈ ms, m.1 ≤ m.2) (spans : List StyledSpan) :
    ∀ acc : List StyledSpan × Nat,
      spansText ((spans.foldl (overlayStep ms) acc).1)
        = spansText acc.1 ++ spansText spans := by
  induction spans with
  | nil =>
      intro acc
      simp [spansText]
  | cons span rest ih =>
      intro acc
      rw [List.foldl_cons, ih]
      show spansText (acc.1 ++ spanPieces highlight_style ms acc.2 span)
          ++ spansText rest = _
      rw [spansText_append, spanPieces_text highlight_style ms acc.2 span hord hwf]
      simp [spansText]

theorem overlayLine_text (pattern : FindPattern) (line : Line)
    (hord : (pattern line.text).Pairwise (fun a b => a.2 ≤ b.1))
    (hwf : ∀ m ∈ pattern line.text, m.1 ≤ m.2) :
    (overlayLine pattern line).text = line.text := by
  unfold overlayLine
  dsimp only
  by_cases hempty : (pattern line.text).isEmpty
  · rw [if_pos hempty]
  · rw [if_neg hempty]
    by_cases hnew :
        ((line.spans.foldl (overlayStep (pattern line.text)) ([], 0)).1).isEmpty
    · rw [if_pos hnew]
    · rw [if_neg hnew]
      show spansText _ = line.text
      have := overlayFold_text (pattern line.text) hord hwf line.spans ([], 0)
      simpa [spansText] using this

/-- Claim C3: the search-highlight overlay never changes any line's raw
text, and a pattern that matches nowhere leaves the document exactly as it
was, styles included.  The hypotheses state what `Regex::find_iter`
guarantees for any compiled pattern: matches are well-formed and listed in
non-overlapping document order. -/
theorem search_overlay_preserves (doc : Document) (pattern : FindPattern)
    (hord : ∀ t, (pattern t).Pairwise (fun a b => a.2 ≤ b.1))
    (hwf : ∀ t, ∀ m ∈ pattern t, m.1 ≤ m.2) :
    ((apply_search_highlight doc pattern).lines.map Line.text
        = doc.lines.map Line.text)
    ∧ ((∀ t, pattern t = []) → apply_search_highlight doc pattern = doc) := by
  constructor
  · show (doc.lines.map (overlayLine pattern)).map Line.text
        = doc.lines.map Line.text
    rw [List.map_map]
    refine List.map_congr_left ?_
    intro l _
    exact overlayLine_text pattern l (hord l.text) (hwf l.text)
  · intro hnone
    unfold apply_search_highlight
    have hid : doc.lines.map (overlayLine pattern) = doc.lines := by
      have : ∀ l ∈ doc.lines, overlayLine pattern l = l := by
        intro l _
        unfold overlayLine
        dsimp only
        rw [hnone l.text]
        rfl
      rw [List.map_congr_left this]
      simp
    rw [hid]

/-- Witness for `search_overlay_preserves` with the never-matching
pattern. -/
theorem search_overlay_preserves_witness :
    ((∀ t, ((fun _ => [] : FindPattern) t).Pairwise (fun a b => a.2 ≤ b.1))
      ∧ (∀ t, ∀ m ∈ (fun _ => [] : FindPattern) t, m.1 ≤ m.2))
    ∧ (((apply_search_highlight exDoc (fun _ => [])).lines.map Line.text
          = exDoc.lines.map Line.text)
      ∧ ((∀ t, (fun _ => [] : FindPattern) t = [])
          → apply_search_highlight exDoc (fun _ => []) = exDoc)) :=
  ⟨⟨fun _ => List.Pairwise.nil, fun _ m hm => absurd hm (List.not_mem_nil m)⟩,
   search_overlay_preserves exDoc (fun _ => [])
     (fun _ => List.Pairwise.nil) (fun _ m hm => absurd hm (List.not_mem_nil m))⟩

/-! ## C8 — cancel restores the snapshot; C10 — invalid queries are no-ops -/

theorem apply_incremental_search_orig
    (regexNew : List Char → Option FindPattern) (app : App) :
    (app.apply_incremental_search regexNew).original_document
      = app.original_document := by
  unfold App.apply_incremental_search
  cases ho : app.original_document <;>
    cases hs : app.interactive_search <;> simp [ho, hs]

theorem search_add_char_orig (regexNew : List Char → Option FindPattern)
    (app : App) (c : Char) :
    (app.search_add_char regexNew c).original_document
      = app.original_document := by
  unfold App.search_add_char
  cases hs : app.interactive_search with
  | none => rfl
  | some s => rw [apply_incremental_search_orig]

theorem search_backspace_orig (regexNew : List Char → Option FindPattern)
    (app : App) :
    (app.search_backspace regexNew).original_document
      = app.original_document := by
  unfold App.search_backspace
  cases hs : app.interactive_search with
  | none => rfl
  | some s => rw [apply_incremental_search_orig]

theorem applyEdits_orig (regexNew : List Char → Option FindPattern)
    (edits : List SearchEdit) :
    ∀ app : App,
      (applyEdits regexNew app edits).original_document
        = app.original_document := by
  induction edits with
  | nil => intro app; rfl
  | cons e rest ih =>
      intro app
      cases e with
      | add c =>
          show (applyEdits regexNew (app.search_add_char regexNew c) rest).original_document
            = app.original_document
          rw [ih, search_add_char_orig]
      | backspace =>
          show (applyEdits regexNew (app.search_backspace regexNew) rest).original_document
            = app.original_document
          rw [ih, search_backspace_orig]

/-- Claim C8: entering search mode, performing any sequence of query edits,
and cancelling restores the document held when search mode was entered —
for every abstract regex compiler.  The snapshot taken by
`enter_search_mode` is never touched by the edits and is reinstalled by
`cancel_search`. -/
theorem search_cancel_restores (regexNew : List Char → Option FindPattern)
    (app : App) (ci : Bool) (edits : List SearchEdit) :
    (App.cancel_search
        (applyEdits regexNew (app.enter_search_mode ci) edits)).document
      = app.document := by
  have horig : (applyEdits regexNew (app.enter_search_mode ci) edits).original_document
      = some app.document := by
    rw [applyEdits_orig]
    rfl
  unfold App.cancel_search
  rw [horig]

/-- Claim C10: while the interactive query does not compile (`Regex::new`
fails, e.g. on an unterminated `[`), every edit is error-free and displays
exactly the pre-search snapshot (no highlight is applied), and confirming
such a query installs no new `SearchState` and returns to Normal mode. -/
theorem invalid_query_noop (regexNew : List Char → Option FindPattern)
    (app : App) (d : Document) (s : InteractiveSearch) (c : Char)
    (horig : app.original_document = some d)
    (hsrch : app.interactive_search = some s)
    (haddc : InteractiveSearch.compile_pattern regexNew
        ⟨s.query ++ [c], s.ignore_case⟩ = none)
    (hback : InteractiveSearch.compile_pattern regexNew
        ⟨s.query.dropLast, s.ignore_case⟩ = none)
    (hq : s.query ≠ [])
    (hcomp : s.compile_pattern regexNew = none) :
    (app.search_add_char regexNew c).document = d
    ∧ (app.search_backspace regexNew).document = d
    ∧ (app.confirm_search regexNew).search_state = app.search_state
    ∧ (app.confirm_search regexNew).mode = .normal
    ∧ (app.confirm_search regexNew).interactive_search = none
    ∧ (app.confirm_search regexNew).original_document = none := by
  have hq' : s.query.isEmpty = false := by
    simpa [List.isEmpty_iff] using hq
  have hconf : app.confirm_search regexNew
      = { app with mode := .normal, interactive_search := none,
                   original_document := none } := by
    unfold App.confirm_search
    rw [hsrch]
    simp only [hq', Bool.false_eq_true, not_false_eq_true, ite_true, hcomp]
  refine ⟨?_, ?_, ?_, ?_, ?_, ?_⟩
  · unfold App.search_add_char
    rw [hsrch]
    unfold App.apply_incremental_search
    simp only [horig]
    simp only [InteractiveSearch.apply_highlighting, haddc]
  · unfold App.search_backspace
    rw [hsrch]
    unfold App.apply_incremental_search
    simp only [horig]
    simp only [InteractiveSearch.apply_highlighting, hback]
  · rw [hconf]
  · rw [hconf]
  · rw [hconf]
  · rw [hconf]

/-- Witness for `invalid_query_noop`: the query `[` (then `[x` after the
edit) never compiles under `regexNeverCompiles`. -/
theorem invalid_query_noop_witness :
    (exSearchApp.original_document = some exDoc
      ∧ exSearchApp.interactive_search = some ⟨['['], true⟩
      ∧ InteractiveSearch.compile_pattern regexNeverCompiles
          ⟨['[', 'x'], true⟩ = none
      ∧ InteractiveSearch.compile_pattern regexNeverCompiles
          ⟨(['['] : List Char).dropLast, true⟩ = none
      ∧ (['['] : List Char) ≠ []
      ∧ InteractiveSearch.compile_pattern regexNeverCompiles ⟨['['], true⟩ = none)
    ∧ ((exSearchApp.search_add_char regexNeverCompiles 'x').document = exDoc
      ∧ (exSearchApp.search_backspace regexNeverCompiles).document = exDoc
      ∧ (exSearchApp.confirm_search regexNeverCompiles).search_state
          = exSearchApp.search_state
      ∧ (exSearchApp.confirm_search regexNeverCompiles).mode = .normal
      ∧ (exSearchApp.confirm_search regexNeverCompiles).interactive_search = none
      ∧ (exSearchApp.confirm_search regexNeverCompiles).original_document = none) :=
  ⟨⟨rfl, rfl, rfl, rfl, by simp, rfl⟩,
   invalid_query_noop regexNeverCompiles exSearchApp exDoc ⟨['['], true⟩ 'x'
     rfl rfl rfl rfl (by simp) rfl⟩

/-- Witness for `parse_line_range_amended` at `sx = "2"`, `sy = "3"`,
`T = 10`. -/
theorem parse_line_range_amended_witness :
    (0 < 10 ∧ parseUsize ['2'] = some 2 ∧ parseUsize ['3'] = some 3)
    ∧ ((parse_line_range (['2'] ++ ':' :: ['3']) 10 =
        if 2 = 0 ∨ 3 = 0 ∨ 3 < 2 then
          .error (.invalidLineRange (['2'] ++ ':' :: ['3']))
        else .ok (2, min 3 10))
      ∧ (parse_line_range (':' :: ['3']) 10 =
        if 3 = 0 then .error (.invalidLineRange (':' :: ['3']))
        else .ok (1, min 3 10))
      ∧ (parse_line_range (['2'] ++ [':']) 10 =
        if 2 = 0 ∨ 10 < 2 then .error (.invalidLineRange (['2'] ++ [':']))
        else .ok (2, 10))
      ∧ (parse_line_range ['2'] 10 =
        if 2 = 0 ∨ 10 < 2 then .error (.invalidLineRange ['2'])
        else .ok (2, 2))) :=
  ⟨⟨by decide, rfl, rfl⟩,
   parse_line_range_amended ['2'] ['3'] 2 3 10 (by decide) rfl rfl⟩

end Mat
